import Mathlib

set_option maxHeartbeats 1000000

/-!
Verification of `src/civitai_model_metadata_download.py`.

The file embeds the Python script shallowly in Lean:
* JSON documents (as handled by Python's `json` module) are the inductive
  type `Json`; numbers are modelled as integers (no response field that the
  script inspects is fractional, and floating point is outside the model).
* `json.dumps(data, indent=4, ensure_ascii=False)` is `pythonDumps`,
  character-for-character, and `json.loads` is `parseJson`.
* `hashlib.sha256` is a full executable SHA-256 over byte lists (`sha256hex`).
* The ambient effects (file system, HTTP responses) are an explicit
  environment `Env`; an invocation produces a list of observable `Event`s
  plus an optional uncaught Python exception, mirroring the control flow of
  the script line by line.
-/

/-!
JSON values. Mutual with `JArr`/`JObj` (arrays and objects) so that the
structural induction used by the serializer round-trip proofs is available.
Object members keep insertion order, exactly like Python dicts.
-/
mutual

inductive Json where
  | null : Json
  | bool : Bool → Json
  | num : Int → Json
  | str : List Char → Json
  | arr : JArr → Json
  | obj : JObj → Json
  deriving DecidableEq

inductive JArr where
  | nil : JArr
  | cons : Json → JArr → JArr
  deriving DecidableEq

inductive JObj where
  | nil : JObj
  | cons : List Char → Json → JObj → JObj
  deriving DecidableEq

end

/-- Python truthiness of a JSON value: `None`, `False`, `0`, `""`, `[]` and
an empty dict are falsy, everything else is truthy. -/
def pyTruthy : Json → Bool
  | .null => false
  | .bool b => b
  | .num n => decide (n ≠ 0)
  | .str s => decide (s ≠ [])
  | .arr .nil => false
  | .arr (.cons _ _) => true
  | .obj .nil => false
  | .obj (.cons _ _ _) => true

/-- Lookup of a key in a JSON object, first match (Python dicts parsed from
JSON have unique keys, so first match agrees with `dict.get`). -/
def jlookup (k : List Char) : JObj → Option Json
  | .nil => none
  | .cons key v tl => if key = k then some v else jlookup k tl

/-- The keys of a JSON object, in order. -/
def jKeys : JObj → List (List Char)
  | .nil => []
  | .cons k _ tl => k :: jKeys tl

/-- `dict.get(key)` on a JSON value: on a non-object it is an uncaught
`AttributeError` (Python raises because only dicts have `.get`). -/
def dictGet (j : Json) (key : List Char) : Except String (Option Json) :=
  match j with
  | .obj ms => .ok (jlookup key ms)
  | _ => .error ("AttributeError: .get on a non-dict value")

/-! Decimal and hexadecimal printing helpers (as Python prints ints and
`\uXXXX` escapes). -/

/-- The decimal digit character for `d < 10`. -/
def digitChar (d : Nat) : Char := Char.ofNat (48 + d)

/-- Lowercase hexadecimal digit character for `d < 16` (Python's `%x`). -/
def hexChar (d : Nat) : Char :=
  if d < 10 then Char.ofNat (48 + d) else Char.ofNat (87 + d)

/-- Decimal digits of a natural number, most significant first (Python's
`repr` of a non-negative int). -/
def natDigits (n : Nat) : List Char :=
  if _h : n < 10 then [digitChar n]
  else natDigits (n / 10) ++ [digitChar (n % 10)]
  decreasing_by exact Nat.div_lt_self (by omega) (by omega)

/-- Python's `repr` of an int (what `json.dumps` emits for integers). -/
def intRepr (n : Int) : List Char :=
  if n < 0 then '-' :: natDigits n.natAbs else natDigits n.natAbs

/-! The serializer: `json.dumps(data, indent=4, ensure_ascii=False)`.
With `ensure_ascii=False` the encoder escapes only `\`, `"` and control
characters below 0x20 (with short escapes for \b \f \n \r \t and `\u00XX`
otherwise); all other characters, non-ASCII included, are kept literally.
With `indent=4` containers are spread over lines, the item separator is a
comma followed by a newline and indentation, the key separator is ": ". -/

/-- Encoding of one character inside a JSON string literal. -/
def escChar (c : Char) : List Char :=
  if c = '\\' then ['\\', '\\']
  else if c = '"' then ['\\', '"']
  else if c = Char.ofNat 8 then ['\\', 'b']
  else if c = Char.ofNat 12 then ['\\', 'f']
  else if c = '\n' then ['\\', 'n']
  else if c = Char.ofNat 13 then ['\\', 'r']
  else if c = '\t' then ['\\', 't']
  else if c.toNat < 32 then
    ['\\', 'u', '0', '0', hexChar (c.toNat / 16), hexChar (c.toNat % 16)]
  else [c]

/-- Body of a JSON string literal. -/
def escStr (s : List Char) : List Char := s.flatMap escChar

/-- A complete JSON string literal, quotes included. -/
def qstr (s : List Char) : List Char := '"' :: (escStr s ++ ['"'])

/-- Newline plus the indentation of nesting level `lvl` (4 spaces each). -/
def nlIndent (lvl : Nat) : List Char := '\n' :: List.replicate (4 * lvl) ' '

mutual

/-- Serialization of a JSON value at nesting level `lvl`. -/
def dumpVal (lvl : Nat) : Json → List Char
  | .null => ("null").data
  | .bool true => ("true").data
  | .bool false => ("false").data
  | .num n => intRepr n
  | .str s => qstr s
  | .arr .nil => ['[', ']']
  | .arr (.cons h t) =>
      '[' :: (nlIndent (lvl + 1) ++ (dumpVal (lvl + 1) h ++
        (dumpArrRest (lvl + 1) t ++ (nlIndent lvl ++ [']']))))
  | .obj .nil => ['{', '}']
  | .obj (.cons k v t) =>
      '{' :: (nlIndent (lvl + 1) ++ (qstr k ++ (':' :: (' ' ::
        (dumpVal (lvl + 1) v ++ (dumpObjRest (lvl + 1) t ++
          (nlIndent lvl ++ ['}'])))))))

/-- Serialization of the remaining array items. -/
def dumpArrRest (lvl : Nat) : JArr → List Char
  | .nil => []
  | .cons h t => ',' :: (nlIndent lvl ++ (dumpVal lvl h ++ dumpArrRest lvl t))

/-- Serialization of the remaining object members. -/
def dumpObjRest (lvl : Nat) : JObj → List Char
  | .nil => []
  | .cons k v t =>
      ',' :: (nlIndent lvl ++ (qstr k ++ (':' :: (' ' ::
        (dumpVal lvl v ++ dumpObjRest lvl t)))))

end

/-- `json.dumps(j, indent=4, ensure_ascii=False)`. -/
def pythonDumps (j : Json) : String := String.mk (dumpVal 0 j)

/-! The parser: a recursive-descent `json.loads`, used to state the
persistence round-trip property. It is fuel-indexed for termination; the
fuel needed is bounded by the structural size of the parsed value. -/

/-- JSON whitespace. -/
def isWs (c : Char) : Bool :=
  c = ' ' || c = '\n' || c = '\t' || c = Char.ofNat 13

/-- Drop leading JSON whitespace. -/
def skipWs : List Char → List Char
  | [] => []
  | c :: cs => if isWs c then skipWs cs else c :: cs

/-- Consume the literal characters `p` from the front of the input. -/
def expectl (p s : List Char) : Option (List Char) :=
  match p, s with
  | [], rest => some rest
  | c :: ps, d :: ss => if c = d then expectl ps ss else none
  | _ :: _, [] => none

/-- Numeric value of a decimal digit character. -/
def digVal (c : Char) : Nat := c.toNat - 48

/-- Numeric value of a hexadecimal digit character, if it is one. -/
def hexVal (c : Char) : Option Nat :=
  if c.isDigit then some (c.toNat - 48)
  else if _h : 97 ≤ c.toNat ∧ c.toNat ≤ 102 then some (c.toNat - 87)
  else if _h : 65 ≤ c.toNat ∧ c.toNat ≤ 70 then some (c.toNat - 55)
  else none

/-- Greedily consume decimal digits, accumulating their value onto `acc`. -/
def parseDigitsAcc (acc : Nat) : List Char → Nat × List Char
  | [] => (acc, [])
  | c :: cs =>
      if c.isDigit then parseDigitsAcc (acc * 10 + (c.toNat - 48)) cs
      else (acc, c :: cs)

/-- Translation of a single-character JSON escape. -/
def unescapeChar (c : Char) : Option Char :=
  if c = '"' then some '"'
  else if c = '\\' then some '\\'
  else if c = '/' then some '/'
  else if c = 'b' then some (Char.ofNat 8)
  else if c = 'f' then some (Char.ofNat 12)
  else if c = 'n' then some '\n'
  else if c = 'r' then some (Char.ofNat 13)
  else if c = 't' then some '\t'
  else none

/-- Parse the body of a JSON string literal (the opening quote has already
been consumed); returns the decoded characters and the input after the
closing quote. -/
def parseStr : List Char → Option (List Char × List Char)
  | [] => none
  | c :: cs =>
    if c = '"' then some ([], cs)
    else if c = '\\' then
      match cs with
      | [] => none
      | e :: cs1 =>
        if e = 'u' then
          match cs1 with
          | a :: b :: a2 :: b2 :: cs2 =>
            match hexVal a, hexVal b, hexVal a2, hexVal b2 with
            | some va, some vb, some va2, some vb2 =>
              match parseStr cs2 with
              | some (s1, r) =>
                  some (Char.ofNat (((va * 16 + vb) * 16 + va2) * 16 + vb2) :: s1, r)
              | none => none
            | _, _, _, _ => none
          | _ => none
        else
          match unescapeChar e with
          | some u =>
            match parseStr cs1 with
            | some (s1, r) => some (u :: s1, r)
            | none => none
          | none => none
    else
      match parseStr cs with
      | some (s1, r) => some (c :: s1, r)
      | none => none

mutual

/-- Parse one JSON value (leading whitespace allowed). -/
def parseVal : Nat → List Char → Option (Json × List Char)
  | 0, _ => none
  | fuel + 1, s =>
    match skipWs s with
    | [] => none
    | c :: cs =>
      if c = 'n' then
        match expectl ['u', 'l', 'l'] cs with
        | some r => some (Json.null, r)
        | none => none
      else if c = 't' then
        match expectl ['r', 'u', 'e'] cs with
        | some r => some (Json.bool true, r)
        | none => none
      else if c = 'f' then
        match expectl ['a', 'l', 's', 'e'] cs with
        | some r => some (Json.bool false, r)
        | none => none
      else if c = '"' then
        match parseStr cs with
        | some (s1, r) => some (Json.str s1, r)
        | none => none
      else if c = '-' then
        match cs with
        | d :: ds =>
          if d.isDigit then
            let p := parseDigitsAcc (digVal d) ds
            some (Json.num (-(p.1 : Int)), p.2)
          else none
        | [] => none
      else if c.isDigit then
        let p := parseDigitsAcc (digVal c) cs
        some (Json.num (p.1 : Int), p.2)
      else if c = '[' then
        let s1 := skipWs cs
        if s1.head? = some ']' then some (Json.arr JArr.nil, s1.tail)
        else
          match parseVal fuel s1 with
          | some (v, r) =>
            match parseArrTail fuel r with
            | some (t, r2) => some (Json.arr (JArr.cons v t), r2)
            | none => none
          | none => none
      else if c = '{' then
        let s1 := skipWs cs
        if s1.head? = some '}' then some (Json.obj JObj.nil, s1.tail)
        else if s1.head? = some '"' then
          match parseStr s1.tail with
          | some (k, r1) =>
            let s2 := skipWs r1
            if s2.head? = some ':' then
              match parseVal fuel s2.tail with
              | some (v, r3) =>
                match parseObjTail fuel r3 with
                | some (t, r4) => some (Json.obj (JObj.cons k v t), r4)
                | none => none
              | none => none
            else none
          | none => none
        else none
      else none

/-- Parse the remaining array items after the first one. -/
def parseArrTail : Nat → List Char → Option (JArr × List Char)
  | 0, _ => none
  | fuel + 1, s =>
    let s1 := skipWs s
    if s1.head? = some ']' then some (JArr.nil, s1.tail)
    else if s1.head? = some ',' then
      match parseVal fuel s1.tail with
      | some (v, r1) =>
        match parseArrTail fuel r1 with
        | some (t, r2) => some (JArr.cons v t, r2)
        | none => none
      | none => none
    else none

/-- Parse the remaining object members after the first one. -/
def parseObjTail : Nat → List Char → Option (JObj × List Char)
  | 0, _ => none
  | fuel + 1, s =>
    let s1 := skipWs s
    if s1.head? = some '}' then some (JObj.nil, s1.tail)
    else if s1.head? = some ',' then
      let s2 := skipWs s1.tail
      if s2.head? = some '"' then
        match parseStr s2.tail with
        | some (k, r2) =>
          let s3 := skipWs r2
          if s3.head? = some ':' then
            match parseVal fuel s3.tail with
            | some (v, r4) =>
              match parseObjTail fuel r4 with
              | some (t, r5) => some (JObj.cons k v t, r5)
              | none => none
            | none => none
          else none
        | none => none
      else none
    else none

end

/-- `json.loads` on a whole document: parse one value and require that only
whitespace follows it. -/
def parseJson (s : String) : Option Json :=
  match parseVal (s.data.length + 1) s.data with
  | some (j, r) => if skipWs r = [] then some j else none
  | none => none

/-! SHA-256 (FIPS 180-4) over byte lists: the embedding of `hashlib.sha256`.
Words are naturals reduced modulo 2^32 explicitly. -/

/-- Truncation to a 32-bit word. -/
def w32 (n : Nat) : Nat := n % 4294967296

/-- Right rotation of a 32-bit word by `n` bits. -/
def rotr32 (x n : Nat) : Nat := w32 (x / 2 ^ n + x * 2 ^ (32 - n))

/-- The SHA-256 choice function (with bitwise complement of `x` within 32 bits). -/
def shaCh (x y z : Nat) : Nat := (x &&& y) ^^^ ((4294967295 - x) &&& z)

/-- The SHA-256 majority function. -/
def shaMaj (x y z : Nat) : Nat := (x &&& y) ^^^ ((x &&& z) ^^^ (y &&& z))

/-- Big sigma-0. -/
def bsig0 (x : Nat) : Nat := rotr32 x 2 ^^^ (rotr32 x 13 ^^^ rotr32 x 22)

/-- Big sigma-1. -/
def bsig1 (x : Nat) : Nat := rotr32 x 6 ^^^ (rotr32 x 11 ^^^ rotr32 x 25)

/-- Small sigma-0. -/
def ssig0 (x : Nat) : Nat := rotr32 x 7 ^^^ (rotr32 x 18 ^^^ (x / 8))

/-- Small sigma-1. -/
def ssig1 (x : Nat) : Nat := rotr32 x 17 ^^^ (rotr32 x 19 ^^^ (x / 1024))

/-- The 64 SHA-256 round constants. -/
def shaK : List Nat :=
  [1116352408, 1899447441, 3049323471, 3921009573, 961987163,
   1508970993, 2453635748, 2870763221, 3624381080, 310598401,
   607225278, 1426881987, 1925078388, 2162078206, 2614888103,
   3248222580, 3835390401, 4022224774, 264347078, 604807628,
   770255983, 1249150122, 1555081692, 1996064986, 2554220882,
   2821834349, 2952996808, 3210313671, 3336571891, 3584528711,
   113926993, 338241895, 666307205, 773529912, 1294757372,
   1396182291, 1695183700, 1986661051, 2177026350, 2456956037,
   2730485921, 2820302411, 3259730800, 3345764771, 3516065817,
   3600352804, 4094571909, 275423344, 430227734, 506948616,
   659060556, 883997877, 958139571, 1322822218, 1537002063,
   1747873779, 1955562222, 2024104815, 2227730452, 2361852424,
   2428436474, 2756734187, 3204031479, 3329325298]

/-- The eight 32-bit words of SHA-256 working state. -/
structure Hash8 where
  a : Nat
  b : Nat
  c : Nat
  d : Nat
  e : Nat
  f : Nat
  g : Nat
  h : Nat
  deriving DecidableEq

/-- The SHA-256 initial hash value. -/
def shaH0 : Hash8 :=
  ⟨1779033703, 3144134277, 1013904242, 2773480762,
   1359893119, 2600822924, 528734635, 1541459225⟩

/-- One SHA-256 compression round with constant `k` and schedule word `w`. -/
def shaRound (st : Hash8) (k w : Nat) : Hash8 :=
  let t1 := w32 (st.h + (bsig1 st.e + (shaCh st.e st.f st.g + (k + w))))
  let t2 := w32 (bsig0 st.a + shaMaj st.a st.b st.c)
  ⟨w32 (t1 + t2), st.a, st.b, st.c, w32 (st.d + t1), st.e, st.f, st.g⟩

/-- Append the next message-schedule word. -/
def extendStep (w : List Nat) : List Nat :=
  w ++ [w32 (ssig1 (w.getD (w.length - 2) 0) + (w.getD (w.length - 7) 0 +
        (ssig0 (w.getD (w.length - 15) 0) + w.getD (w.length - 16) 0)))]

/-- Iterate a function `n` times. -/
def iterN {α : Type} (f : α → α) : Nat → α → α
  | 0, a => a
  | n + 1, a => iterN f n (f a)

/-- The 64-word message schedule of one block. -/
def msgSchedule (block : List Nat) : List Nat := iterN extendStep 48 block

/-- Compress one 16-word block into the state. -/
def compressBlock (st : Hash8) (block : List Nat) : Hash8 :=
  let f8 := ((shaK.zip (msgSchedule block)).foldl
    (fun s p => shaRound s p.1 p.2) st)
  ⟨w32 (st.a + f8.a), w32 (st.b + f8.b), w32 (st.c + f8.c), w32 (st.d + f8.d),
   w32 (st.e + f8.e), w32 (st.f + f8.f), w32 (st.g + f8.g), w32 (st.h + f8.h)⟩

/-- Big-endian bytes (most significant first) of `n`, `k` bytes wide. -/
def beBytes (k n : Nat) : List Nat :=
  match k with
  | 0 => []
  | k + 1 => (n / 2 ^ (8 * k)) % 256 :: beBytes k n

/-- SHA-256 message padding: a 0x80 byte, zeros to 56 mod 64, and the
bit length as a 64-bit big-endian number. -/
def padMsg (msg : List Nat) : List Nat :=
  msg ++ (128 :: (List.replicate ((119 - msg.length % 64) % 64) 0 ++
    beBytes 8 (msg.length * 8)))

/-- Split a list into chunks of `n` elements (the last one possibly short),
as successive `f.read(n)` calls deliver a file. -/
def chunksN {α : Type} (n : Nat) (l : List α) : List (List α) :=
  if _h : l.length = 0 ∨ n = 0 then [] else l.take n :: chunksN n (l.drop n)
  termination_by l.length
  decreasing_by
    simp only [List.length_drop]
    omega

/-- Group a byte list into big-endian 32-bit words, four bytes each. -/
def toWords : List Nat → List Nat
  | b0 :: b1 :: b2 :: b3 :: rest =>
      (((b0 * 256 + b1) * 256 + b2) * 256 + b3) :: toWords rest
  | _ => []

/-- SHA-256 digest bytes of a message given as a list of bytes. -/
def sha256Bytes (msg : List Nat) : List Nat :=
  let st := ((chunksN 64 (padMsg msg)).foldl
    (fun s b => compressBlock s (toWords b)) shaH0)
  ([st.a, st.b, st.c, st.d, st.e, st.f, st.g, st.h]).flatMap
    (fun w => [(w / 16777216) % 256, (w / 65536) % 256, (w / 256) % 256, w % 256])

/-- Two lowercase hex digits of a byte. -/
def hexByte (b : Nat) : List Char := [hexChar ((b / 16) % 16), hexChar (b % 16)]

/-- The lowercase hexadecimal SHA-256 digest of a byte list: the value of
`hashlib.sha256(data).hexdigest()`. -/
def sha256hex (msg : List Nat) : String :=
  String.mk ((sha256Bytes msg).flatMap hexByte)

/-- The running state of a `hashlib.sha256()` object is, observably, the
sequence of bytes fed to it so far; `update` appends to it. -/
def sha256Update (st chunk : List Nat) : List Nat := st ++ chunk

/-! POSIX path helpers used by the script: `os.path.basename`,
`os.path.splitext`, `os.path.join` (the script's path arguments are POSIX
style). They operate on character lists. -/

/-- `os.path.basename`: the part after the last slash. -/
def basenameCh (l : List Char) : List Char :=
  (l.reverse.takeWhile (fun c => c != '/')).reverse

/-- `os.path.splitext`: split off the final `.ext` of the last path
component, where a component consisting only of leading dots has no
extension (`.bashrc` splits to `(".bashrc", "")`). -/
def splitextCh (l : List Char) : List Char × List Char :=
  let b := basenameCh l
  let stripped := b.drop (b.takeWhile (fun c => c == '.')).length
  if stripped.contains '.' then
    let extLen := (l.reverse.takeWhile (fun c => c != '.')).length + 1
    (l.take (l.length - extLen), l.drop (l.length - extLen))
  else (l, [])

/-- `os.path.join` for two components: if the second is absolute it wins;
otherwise it is appended, inserting a slash unless the first part is empty
or already ends in a slash. -/
def pathJoinCh (a b : List Char) : List Char :=
  if b.head? = some '/' then b
  else if a.length = 0 then a ++ b
  else if a.getLast? = some '/' then a ++ b
  else a ++ ('/' :: b)

/-! The program model. The ambient world (file system and registry) is an
`Env`; running the script records a list of `Event`s (console output,
network requests, file-system effects) and possibly an uncaught Python
exception (modelled as its message). -/

/-- One observable effect of an invocation. -/
inductive Event where
  | log : String → Event
  | netGet : String → Event
  | fileRead : String → Event
  | mkdirs : String → Event
  | fileWrite : String → String → Event
  deriving DecidableEq

/-- An HTTP response: status code and parsed JSON body (`response.json()`). -/
structure HttpResp where
  status : Nat
  body : Json
  deriving DecidableEq

/-- The ambient world of one invocation.
* `readBytes` — contents of a file, or the message of the `IOError` raised
  when opening/reading it;
* `hashResp` — the registry's response to `GET .../model-versions/by-hash/{h}`,
  keyed by the digest;
* `modelResp` — the registry's response to `GET .../models/{id}`, keyed by
  the rendered id;
* `dirExists` — `os.path.exists`;
* `makedirsErr` — `none` if `os.makedirs` succeeds on the path, otherwise
  the message of the `OSError` it raises;
* `writeErr` — `none` if opening/writing the file at the path succeeds,
  otherwise the message of the exception raised inside `save_model_info`'s
  `try` block. -/
structure Env where
  readBytes : String → Except String (List Nat)
  hashResp : String → HttpResp
  modelResp : String → HttpResp
  dirExists : String → Bool
  makedirsErr : String → Option String
  writeErr : String → Option String

/-- Python `str.endswith`. -/
def pyEndsWith (s suf : String) : Bool := suf.data.isSuffixOf s.data

/-- Events plus an optional uncaught exception: the outcome of a call. -/
structure RunRes where
  events : List Event
  exc : Option String
  deriving DecidableEq

/-- `BASE_URL` (line 8 of the source). -/
def BASE_URL : String := "https://civitai.com/api/v1"

/-- `EXTENSION` (line 9 of the source). -/
def EXTENSION : String := ".safetensors"

/-!
Python's `str()` of a JSON value, used only to interpolate the model id
into the second URL. Scalars are rendered exactly (`None`, `True`/`False`,
decimal ints, the text of a string); containers are rendered in Python's
`repr` style with single quotes, without modelling `repr`'s escaping and
quote-selection subtleties, which the script never depends on.
-/
mutual

def pyReprV : Json → List Char
  | .null => ['N', 'o', 'n', 'e']
  | .bool true => ['T', 'r', 'u', 'e']
  | .bool false => ['F', 'a', 'l', 's', 'e']
  | .num n => intRepr n
  | .str s => Char.ofNat 39 :: (s ++ [Char.ofNat 39])
  | .arr a => '[' :: (pyReprA a ++ [']'])
  | .obj m => '{' :: (pyReprO m ++ ['}'])

def pyReprA : JArr → List Char
  | .nil => []
  | .cons h .nil => pyReprV h
  | .cons h t => pyReprV h ++ (',' :: (' ' :: pyReprA t))

def pyReprO : JObj → List Char
  | .nil => []
  | .cons k v .nil =>
      (Char.ofNat 39 :: (k ++ [Char.ofNat 39])) ++ (':' :: (' ' :: pyReprV v))
  | .cons k v t =>
      ((Char.ofNat 39 :: (k ++ [Char.ofNat 39])) ++ (':' :: (' ' :: pyReprV v)))
        ++ (',' :: (' ' :: pyReprO t))

end

/-- Python's `str()` of a JSON value (a string renders as its text). -/
def pyStr : Json → String
  | .str s => String.mk s
  | j => String.mk (pyReprV j)

/-- The URL of the hash lookup (line 21). -/
def hashUrl (file_hash : String) : String :=
  BASE_URL ++ "/model-versions/by-hash/" ++ file_hash

/-- The URL of the id lookup (line 31). -/
def modelUrl (model_id : Json) : String := BASE_URL ++ "/models/" ++ pyStr model_id

/-- `get_sha256` (lines 11-17): open the file, read it in 4096-byte chunks,
feed each chunk to the incremental hash, return the hex digest. An `IOError`
while opening or reading propagates: no partial result. -/
def get_sha256 (env : Env) (file_path : String) :
    List Event × Except String String :=
  match env.readBytes file_path with
  | .error e => ([], .error e)
  | .ok bytes =>
      ([.fileRead file_path],
       .ok (sha256hex ((chunksN 4096 bytes).foldl sha256Update [])))

/-- `fetch_model_version_by_hash` (lines 19-27). -/
def fetch_model_version_by_hash (env : Env) (file_hash : String) :
    List Event × Option Json :=
  let resp := env.hashResp file_hash
  if resp.status = 200 then ([.netGet (hashUrl file_hash)], some resp.body)
  else
    ([.netGet (hashUrl file_hash),
      .log ("[ERROR] Failed to fetch model version for hash " ++ file_hash ++
        " - " ++ Nat.repr resp.status)], none)

/-- `fetch_model_details` (lines 29-37). -/
def fetch_model_details (env : Env) (model_id : Json) :
    List Event × Option Json :=
  let resp := env.modelResp (pyStr model_id)
  if resp.status = 200 then ([.netGet (modelUrl model_id)], some resp.body)
  else
    ([.netGet (modelUrl model_id),
      .log ("[ERROR] Failed to fetch model for ID " ++ pyStr model_id ++
        " - " ++ Nat.repr resp.status)], none)

/-- `save_model_info` (lines 39-47): derive the json path by replacing the
extension, try to write the serialized data; any exception in the `try`
block is caught and logged with the file path and the error message. -/
def save_model_info (env : Env) (file_path : String) (data : Json) :
    List Event :=
  let json_path := String.mk ((splitextCh file_path.data).1 ++ (".json".data))
  match env.writeErr json_path with
  | none =>
      [.fileWrite json_path (pythonDumps data),
       .log ("[INFO] Saved model info to " ++ json_path)]
  | some e =>
      [.log ("[ERROR] Failed to save JSON for " ++ file_path ++ " - " ++ e)]

/-- Lines 91-94: if `model_id` is truthy, fetch the model details; the
`model` entry is added only when that lookup returns a truthy value. -/
def model_info_step (env : Env) (model_id : Option Json) :
    List Event × Option Json :=
  match model_id with
  | some idv =>
    if pyTruthy idv then
      match fetch_model_details env idv with
      | (evs, some md) => if pyTruthy md then (evs, some md) else (evs, none)
      | (evs, none) => (evs, none)
    else ([], none)
  | none => ([], none)

/-- Lines 96-99: compute the base name, create the output directory if it
does not exist (an `OSError` from `os.makedirs` is not caught), then save.
Returns the events and an optional uncaught exception. -/
def persist_step (env : Env) (file_path output_dir : String) (info : Json) :
    List Event × Option String :=
  let target := String.mk (pathJoinCh output_dir.data (basenameCh file_path.data))
  if env.dirExists output_dir then (save_model_info env target info, none)
  else
    match env.makedirsErr output_dir with
    | none => (Event.mkdirs output_dir :: save_model_info env target info, none)
    | some e => ([], some e)

/-- `get_metadata_for_lora` (lines 75-99), the orchestrator: extension
check, hash, hash lookup (early return on a falsy result), optional id
lookup, bundle construction, directory creation and persist. -/
def get_metadata_for_lora (env : Env) (file_path output_dir : String) :
    RunRes :=
  if pyEndsWith file_path EXTENSION then
    let e0 : List Event := [.log ("\n[PROCESSING] " ++ file_path)]
    match get_sha256 env file_path with
    | (e1, .error err) => ⟨e0 ++ e1, some err⟩
    | (e1, .ok file_hash) =>
      let e2 : List Event := [.log ("[HASH] " ++ file_hash)]
      match fetch_model_version_by_hash env file_hash with
      | (e3, mvOpt) =>
        match mvOpt with
        | none => ⟨e0 ++ (e1 ++ (e2 ++ e3)), none⟩
        | some mv =>
          if pyTruthy mv then
            match dictGet mv ("modelId".data) with
            | .error e => ⟨e0 ++ (e1 ++ (e2 ++ e3)), some e⟩
            | .ok model_id =>
              match model_info_step env model_id with
              | (e4, mdOpt) =>
                let info := Json.obj (JObj.cons ("modelVersion".data) mv
                  (match mdOpt with
                   | some md => JObj.cons ("model".data) md JObj.nil
                   | none => JObj.nil))
                match persist_step env file_path output_dir info with
                | (e5, exc) => ⟨e0 ++ (e1 ++ (e2 ++ (e3 ++ (e4 ++ e5)))), exc⟩
          else ⟨e0 ++ (e1 ++ (e2 ++ e3)), none⟩
  else ⟨[], none⟩

/-- The usage message of the CLI (line 103). -/
def usageMsg : String :=
  "Usage: python civitai_model_metadata_download.py <path_to_safetensors> <output_directory>"

/-- The `__main__` block (lines 101-106): with the wrong argument count,
print usage and exit 1; otherwise run the orchestrator, exiting 0 on normal
return and nonzero when an exception goes uncaught. -/
def main_entry (env : Env) (argv : List String) : List Event × Nat :=
  if argv.length = 3 then
    let r := get_metadata_for_lora env (argv.getD 1 ("")) (argv.getD 2 (""))
    (r.events, match r.exc with | none => 0 | some _ => 1)
  else ([Event.log usageMsg], 1)

/-- The paths and contents written by a list of events. -/
def writesOf (l : List Event) : List (String × String) :=
  l.filterMap (fun e => match e with | .fileWrite p c => some (p, c) | _ => none)

/-- The URLs requested by a list of events. -/
def getsOf (l : List Event) : List String :=
  l.filterMap (fun e => match e with | .netGet u => some u | _ => none)

/-! Basic lemmas about whitespace skipping, literal matching, and decimal
digit printing/parsing, used by the serializer round-trip proof. -/

/-- Skipping whitespace stops at a non-whitespace head. -/
theorem skipWs_cons_of_not {c : Char} (l : List Char) (h : isWs c = false) :
    skipWs (c :: l) = c :: l := by
  simp [skipWs, h]

/-- Skipping whitespace passes over leading spaces. -/
theorem skipWs_replicate_space (n : Nat) (s : List Char) :
    skipWs (List.replicate n ' ' ++ s) = skipWs s := by
  induction n with
  | zero => rfl
  | succ k ih => simpa [List.replicate_succ, skipWs, isWs] using ih

/-- Skipping whitespace passes over a newline-plus-indent block. -/
theorem skipWs_nlIndent (lvl : Nat) (s : List Char) :
    skipWs (nlIndent lvl ++ s) = skipWs s := by
  simpa [nlIndent, skipWs, isWs] using skipWs_replicate_space (4 * lvl) s

/-- Matching a literal against itself succeeds and leaves the rest. -/
theorem expectl_append (p s : List Char) : expectl p (p ++ s) = some s := by
  induction p with
  | nil => rfl
  | cons c ps ih => simp [expectl, ih]

/-- The digit character of `d < 10` is a decimal digit. -/
theorem isDigit_digitChar {d : Nat} (h : d < 10) :
    (digitChar d).isDigit = true := by
  interval_cases d <;> decide

/-- Code point of the digit character of `d < 10`. -/
theorem toNat_digitChar {d : Nat} (h : d < 10) : (digitChar d).toNat = 48 + d := by
  interval_cases d <;> decide

/-- `hexVal` decodes `hexChar` on digits below 16. -/
theorem hexVal_hexChar {d : Nat} (h : d < 16) : hexVal (hexChar d) = some d := by
  interval_cases d <;> decide

/-- The digit list of a natural number is nonempty and starts with a digit. -/
theorem natDigits_head (n : Nat) :
    ∃ c cs, natDigits n = c :: cs ∧ c.isDigit = true := by
  induction n using Nat.strong_induction_on with
  | _ n ih =>
    rw [natDigits]
    split
    · next h => exact ⟨digitChar n, [], rfl, isDigit_digitChar h⟩
    · next h =>
      obtain ⟨c, cs, hc, hd⟩ := ih (n / 10) (Nat.div_lt_self (by omega) (by omega))
      exact ⟨c, cs ++ [digitChar (n % 10)], by rw [hc]; rfl, hd⟩

/-- Greedy digit parsing consumes exactly the printed digits of `n`,
folding them onto the accumulator. -/
theorem parseDigitsAcc_natDigits (n : Nat) :
    ∀ (acc : Nat) (rest : List Char),
      parseDigitsAcc acc (natDigits n ++ rest) =
        parseDigitsAcc (acc * 10 ^ (natDigits n).length + n) rest := by
  induction n using Nat.strong_induction_on with
  | _ n ih =>
    intro acc rest
    rw [natDigits]
    split
    · next h =>
      simp only [List.singleton_append, List.length_cons, List.length_nil]
      rw [parseDigitsAcc]
      simp [isDigit_digitChar h, toNat_digitChar h]
    · next h =>
      have hlt : n / 10 < n := Nat.div_lt_self (by omega) (by omega)
      simp only [List.append_assoc, List.singleton_append, List.length_append,
        List.length_cons, List.length_nil]
      rw [ih (n / 10) hlt acc (digitChar (n % 10) :: rest)]
      rw [parseDigitsAcc]
      have h10 : n % 10 < 10 := Nat.mod_lt n (by omega)
      simp only [isDigit_digitChar h10, if_true, toNat_digitChar h10]
      congr 1
      have hpow : 10 ^ ((natDigits (n / 10)).length + 1) =
          10 ^ (natDigits (n / 10)).length * 10 := by ring
      have hn : n / 10 * 10 + n % 10 = n := by omega
      rw [hpow]
      ring_nf
      omega

/-- Guard for greedy number parsing: the following input must not begin
with another digit (true of every position where the serializer can place
a number: before a comma, a newline or the end of input). -/
def numGuard : List Char → Prop
  | [] => True
  | c :: _ => c.isDigit = false

/-- Greedy digit parsing of a printed number followed by a guarded rest. -/
theorem parseDigits_natDigits (n : Nat) (rest : List Char) (h : numGuard rest) :
    parseDigitsAcc 0 (natDigits n ++ rest) = (n, rest) := by
  rw [parseDigitsAcc_natDigits]
  cases rest with
  | nil => simp [parseDigitsAcc]
  | cons c cs =>
    have hc : c.isDigit = false := h
    simp [parseDigitsAcc, hc]

/-- Decoding one escaped character from a string-literal body. -/
theorem parseStr_escChar (c : Char) (tlDec tl rest : List Char)
    (ih : parseStr (tl ++ ('"' :: rest)) = some (tlDec, rest)) :
    parseStr (escChar c ++ (tl ++ ('"' :: rest))) = some (c :: tlDec, rest) := by
  by_cases h1 : c = '\\'
  · subst h1
    rw [show escChar '\\' = ['\\', '\\'] from rfl, parseStr.eq_def]
    simp [unescapeChar, ih]
  by_cases h2 : c = '"'
  · subst h2
    rw [show escChar '"' = ['\\', '"'] from rfl, parseStr.eq_def]
    simp [unescapeChar, ih]
  by_cases h3 : c = Char.ofNat 8
  · subst h3
    rw [show escChar (Char.ofNat 8) = ['\\', 'b'] from rfl, parseStr.eq_def]
    simp [unescapeChar, ih]
  by_cases h4 : c = Char.ofNat 12
  · subst h4
    rw [show escChar (Char.ofNat 12) = ['\\', 'f'] from rfl, parseStr.eq_def]
    simp [unescapeChar, ih]
  by_cases h5 : c = '\n'
  · subst h5
    rw [show escChar '\n' = ['\\', 'n'] from rfl, parseStr.eq_def]
    simp [unescapeChar, ih]
  by_cases h6 : c = Char.ofNat 13
  · subst h6
    rw [show escChar (Char.ofNat 13) = ['\\', 'r'] from rfl, parseStr.eq_def]
    simp [unescapeChar, ih]
  by_cases h7 : c = '\t'
  · subst h7
    rw [show escChar '\t' = ['\\', 't'] from rfl, parseStr.eq_def]
    simp [unescapeChar, ih]
  by_cases h8 : c.toNat < 32
  · have hdiv : c.toNat / 16 < 16 := by omega
    have hmod : c.toNat % 16 < 16 := by omega
    rw [show escChar c =
          ['\\', 'u', '0', '0', hexChar (c.toNat / 16), hexChar (c.toNat % 16)] from by
        simp [escChar, h1, h2, h3, h4, h5, h6, h7, h8], parseStr.eq_def]
    simp only [List.cons_append, List.nil_append]
    simp [hexVal_hexChar hdiv, hexVal_hexChar hmod, ih,
      show hexVal '0' = some 0 from rfl]
    have hval : c.toNat / 16 * 16 + c.toNat % 16 = c.toNat := by omega
    rw [hval, Char.ofNat_toNat]
  · rw [show escChar c = [c] from by
        simp [escChar, h1, h2, h3, h4, h5, h6, h7, h8], parseStr.eq_def]
    simp only [List.cons_append, List.nil_append]
    simp [h1, h2, ih]

/-- Round trip for string-literal bodies: parsing the escaped text of `s`
followed by the closing quote recovers `s`. -/
theorem parseStr_escStr (s : List Char) :
    ∀ rest : List Char, parseStr (escStr s ++ ('"' :: rest)) = some (s, rest) := by
  induction s with
  | nil =>
    intro rest
    rw [show escStr [] = [] from rfl, List.nil_append, parseStr.eq_def]
    simp
  | cons c s' ih =>
    intro rest
    have h : escStr (c :: s') = escChar c ++ escStr s' := by simp [escStr]
    rw [h, List.append_assoc]
    exact parseStr_escChar c s' (escStr s') rest (ih rest)

/-- Whitespace skipping is idempotent. -/
theorem skipWs_idem (s : List Char) : skipWs (skipWs s) = skipWs s := by
  induction s with
  | nil => rfl
  | cons c cs ih =>
    by_cases h : isWs c = true
    · simp [skipWs, h, ih]
    · simp only [Bool.not_eq_true] at h
      simp [skipWs, h]

/-- Parsing a value ignores leading whitespace. -/
theorem parseVal_skipWs (fuel : Nat) (s : List Char) :
    parseVal fuel (skipWs s) = parseVal fuel s := by
  cases fuel with
  | zero => rfl
  | succ f =>
    rw [parseVal.eq_def]
    conv_rhs => rw [parseVal.eq_def]
    simp only [skipWs_idem]

/-- A digit character differs from any non-digit character. -/
theorem isDigit_ne {c d : Char} (h : c.isDigit = true) (hd : d.isDigit = false) :
    ¬ c = d := fun he => by subst he; rw [h] at hd; cases hd

/-- A digit character is not JSON whitespace. -/
theorem isDigit_not_ws {c : Char} (h : c.isDigit = true) : isWs c = false := by
  cases hw : isWs c
  · rfl
  · exfalso
    simp only [isWs, Bool.or_eq_true, decide_eq_true_eq] at hw
    rcases hw with ((rfl | rfl) | rfl) | rfl <;> simp at h

/-- Characters that can start a serialized JSON value. -/
def validStart (c : Char) : Bool :=
  c = 'n' || c = 't' || c = 'f' || c = '"' || c = '-' || c.isDigit ||
    c = '[' || c = '{'

/-- Every serialized value is nonempty and starts with a `validStart`
character. -/
theorem dumpVal_head (lvl : Nat) (j : Json) :
    ∃ c cs, dumpVal lvl j = c :: cs ∧ validStart c = true := by
  cases j with
  | null => exact ⟨'n', _, rfl, by decide⟩
  | bool b => cases b
              · exact ⟨'f', _, rfl, by decide⟩
              · exact ⟨'t', _, rfl, by decide⟩
  | num n =>
    rw [show dumpVal lvl (Json.num n) = intRepr n from rfl, intRepr]
    by_cases h : n < 0
    · exact ⟨'-', _, by rw [if_pos h], by decide⟩
    · obtain ⟨c, cs, hc, hd⟩ := natDigits_head n.natAbs
      refine ⟨c, cs, by rw [if_neg h, hc], ?_⟩
      simp [validStart, hd]
  | str s => exact ⟨'"', _, rfl, by decide⟩
  | arr a => cases a
             · exact ⟨'[', _, rfl, by decide⟩
             · exact ⟨'[', _, rfl, by decide⟩
  | obj m => cases m
             · exact ⟨'{', _, rfl, by decide⟩
             · exact ⟨'{', _, rfl, by decide⟩

/-- A `validStart` character is not whitespace and is none of the
structural characters the parser tests for. -/
theorem validStart_props {c : Char} (h : validStart c = true) :
    isWs c = false ∧ ¬ c = ']' ∧ ¬ c = '}' := by
  simp only [validStart, Bool.or_eq_true, decide_eq_true_eq] at h
  rcases h with ((((((h | h) | h) | h) | h) | h) | h) | h
  all_goals first
    | (subst h; exact ⟨by decide, by decide, by decide⟩)
    | exact ⟨isDigit_not_ws h, isDigit_ne h (by decide), isDigit_ne h (by decide)⟩

/-!
Structural size of a JSON value, a fuel bound for the parser.
-/
mutual

/-- Structural size of a JSON value. -/
def jsize : Json → Nat
  | .null => 1
  | .bool _ => 1
  | .num _ => 1
  | .str _ => 1
  | .arr a => jsizeA a + 1
  | .obj m => jsizeO m + 1

/-- Structural size of an array tail. -/
def jsizeA : JArr → Nat
  | .nil => 1
  | .cons h t => jsize h + jsizeA t + 1

/-- Structural size of an object tail. -/
def jsizeO : JObj → Nat
  | .nil => 1
  | .cons _ v t => jsize v + jsizeO t + 1

end

/-- Sizes are positive. -/
theorem jsize_pos (j : Json) : 1 ≤ jsize j := by
  cases j <;> simp [jsize]

/-- Sizes of array tails are positive. -/
theorem jsizeA_pos (t : JArr) : 1 ≤ jsizeA t := by
  cases t <;> simp [jsizeA]

/-- Sizes of object tails are positive. -/
theorem jsizeO_pos (m : JObj) : 1 ≤ jsizeO m := by
  cases m <;> simp [jsizeO]

/-- Seeding the accumulator with the leading digit agrees with parsing the
whole digit string. -/
theorem parseDigitsAcc_cons_digit {c : Char} (cs : List Char)
    (h : c.isDigit = true) :
    parseDigitsAcc (digVal c) cs = parseDigitsAcc 0 (c :: cs) := by
  rw [parseDigitsAcc]
  simp [h, digVal]

/-- The rest of a serialized array, followed by indentation, never starts
with a digit. -/
theorem numGuard_arrRest (lvl lvl2 : Nat) (t : JArr) (z : List Char) :
    numGuard (dumpArrRest lvl t ++ (nlIndent lvl2 ++ z)) := by
  cases t <;> simp [dumpArrRest, nlIndent, numGuard]

/-- The rest of a serialized object, followed by indentation, never starts
with a digit. -/
theorem numGuard_objRest (lvl lvl2 : Nat) (m : JObj) (z : List Char) :
    numGuard (dumpObjRest lvl m ++ (nlIndent lvl2 ++ z)) := by
  cases m <;> simp [dumpObjRest, nlIndent, numGuard]

/-- Parsing ignores one leading whitespace character. -/
theorem parseVal_cons_ws {c : Char} (fuel : Nat) (s : List Char)
    (h : isWs c = true) : parseVal fuel (c :: s) = parseVal fuel s := by
  rw [← parseVal_skipWs fuel (c :: s), ← parseVal_skipWs fuel s]
  simp [skipWs, h]

/-- Parsing ignores a leading newline-plus-indent block. -/
theorem parseVal_nlIndent (fuel lvl : Nat) (s : List Char) :
    parseVal fuel (nlIndent lvl ++ s) = parseVal fuel s := by
  rw [← parseVal_skipWs fuel (nlIndent lvl ++ s), skipWs_nlIndent,
    parseVal_skipWs]

/-- Round trip of the serializer and the parser, by strong induction on the
structural size: a serialized value followed by a guarded rest parses back
to exactly that value, and likewise for serialized array and object tails
followed by their closing brackets. -/
theorem roundtrip_aux : ∀ N : Nat,
    (∀ j : Json, jsize j ≤ N → ∀ (lvl fuel : Nat) (rest : List Char),
      jsize j ≤ fuel → numGuard rest →
      parseVal fuel (dumpVal lvl j ++ rest) = some (j, rest)) ∧
    (∀ t : JArr, jsizeA t ≤ N → ∀ (lvl lvl2 fuel : Nat) (rest : List Char),
      jsizeA t ≤ fuel → numGuard rest →
      parseArrTail fuel (dumpArrRest lvl t ++ (nlIndent lvl2 ++ (']' :: rest)))
        = some (t, rest)) ∧
    (∀ m : JObj, jsizeO m ≤ N → ∀ (lvl lvl2 fuel : Nat) (rest : List Char),
      jsizeO m ≤ fuel → numGuard rest →
      parseObjTail fuel (dumpObjRest lvl m ++ (nlIndent lvl2 ++ ('}' :: rest)))
        = some (m, rest)) := by
  intro N
  induction N with
  | zero =>
    exact ⟨fun j hj => absurd hj (by have := jsize_pos j; omega),
           fun t ht => absurd ht (by have := jsizeA_pos t; omega),
           fun m hm => absurd hm (by have := jsizeO_pos m; omega)⟩
  | succ N ih =>
    obtain ⟨ihV, ihA, ihO⟩ := ih
    refine ⟨?_, ?_, ?_⟩
    · intro j hjN lvl fuel rest hf hg
      cases fuel with
      | zero => exact absurd hf (by have := jsize_pos j; omega)
      | succ f =>
        cases j with
        | null =>
          rw [show dumpVal lvl Json.null = ['n', 'u', 'l', 'l'] from rfl,
            parseVal.eq_def]
          simp [skipWs, isWs, expectl]
        | bool b =>
          cases b
          · rw [show dumpVal lvl (Json.bool false) = ['f', 'a', 'l', 's', 'e']
                from rfl, parseVal.eq_def]
            simp [skipWs, isWs, expectl]
          · rw [show dumpVal lvl (Json.bool true) = ['t', 'r', 'u', 'e']
                from rfl, parseVal.eq_def]
            simp [skipWs, isWs, expectl]
        | num n =>
          rw [show dumpVal lvl (Json.num n) = intRepr n from rfl, intRepr]
          by_cases hn : n < 0
          · rw [if_pos hn]
            obtain ⟨c, cs, hc, hd⟩ := natDigits_head n.natAbs
            rw [hc, parseVal.eq_def]
            simp only [List.cons_append,
              skipWs_cons_of_not _ (by decide : isWs '-' = false)]
            simp only [show ('-' = 'n') = False by simp,
              show ('-' = 't') = False by simp, show ('-' = 'f') = False by simp,
              show ('-' = '"') = False by simp, if_false, if_pos rfl, if_true]
            rw [hd]
            simp only [if_true]
            rw [parseDigitsAcc_cons_digit _ hd,
              show c :: (cs ++ rest) = (c :: cs) ++ rest from rfl, ← hc,
              parseDigits_natDigits _ _ hg]
            have h2 : -((n.natAbs : Nat) : Int) = n := by omega
            rw [h2]
          · rw [if_neg hn]
            obtain ⟨c, cs, hc, hd⟩ := natDigits_head n.natAbs
            rw [hc, parseVal.eq_def]
            simp only [List.cons_append,
              skipWs_cons_of_not _ (isDigit_not_ws hd)]
            simp only [if_neg (isDigit_ne hd (by decide : ('n').isDigit = false)),
              if_neg (isDigit_ne hd (by decide : ('t').isDigit = false)),
              if_neg (isDigit_ne hd (by decide : ('f').isDigit = false)),
              if_neg (isDigit_ne hd (by decide : ('"').isDigit = false)),
              if_neg (isDigit_ne hd (by decide : ('-').isDigit = false))]
            rw [hd]
            simp only [if_true]
            rw [parseDigitsAcc_cons_digit _ hd,
              show c :: (cs ++ rest) = (c :: cs) ++ rest from rfl, ← hc,
              parseDigits_natDigits _ _ hg]
            have h2 : ((n.natAbs : Nat) : Int) = n := by omega
            rw [h2]
        | str s =>
          rw [show dumpVal lvl (Json.str s) = '"' :: (escStr s ++ ['"'])
              from rfl, parseVal.eq_def]
          simp only [List.cons_append, List.append_assoc, List.singleton_append,
            skipWs_cons_of_not _ (by decide : isWs '"' = false)]
          simp only [show ('"' = 'n') = False by simp,
            show ('"' = 't') = False by simp, show ('"' = 'f') = False by simp,
            if_false, if_pos rfl, if_true]
          rw [parseStr_escStr]
          simp
        | arr a =>
          cases a with
          | nil =>
            rw [show dumpVal lvl (Json.arr JArr.nil) = ['[', ']'] from rfl,
              parseVal.eq_def]
            simp [skipWs, isWs]
          | cons hj t =>
            have hsz : jsize hj + jsizeA t + 2 ≤ N + 1 := by
              simpa [jsize, jsizeA] using hjN
            have hsf : jsize hj + jsizeA t + 2 ≤ f + 1 := by
              simpa [jsize, jsizeA] using hf
            have hp1 := jsize_pos hj
            have hp2 := jsizeA_pos t
            rw [show dumpVal lvl (Json.arr (JArr.cons hj t)) =
                '[' :: (nlIndent (lvl + 1) ++ (dumpVal (lvl + 1) hj ++
                  (dumpArrRest (lvl + 1) t ++ (nlIndent lvl ++ [']']))))
                from rfl, parseVal.eq_def]
            simp only [List.cons_append, List.append_assoc,
              List.singleton_append, List.nil_append]
            rw [skipWs_cons_of_not _ (by decide : isWs '[' = false)]
            obtain ⟨c, cs, hc, hv⟩ := dumpVal_head (lvl + 1) hj
            obtain ⟨hnw, hne1, hne2⟩ := validStart_props hv
            have hskip : ∀ X : List Char,
                skipWs (dumpVal (lvl + 1) hj ++ X) = dumpVal (lvl + 1) hj ++ X := by
              intro X
              rw [hc, List.cons_append]
              exact skipWs_cons_of_not _ hnw
            have hhd : ∀ X : List Char,
                (dumpVal (lvl + 1) hj ++ X).head? = some c := by
              intro X
              rw [hc, List.cons_append, List.head?_cons]
            simp only [show ('[' = 'n') = False by simp,
              show ('[' = 't') = False by simp, show ('[' = 'f') = False by simp,
              show ('[' = '"') = False by simp, show ('[' = '-') = False by simp,
              show ('[' : Char).isDigit = false by decide,
              if_false, if_pos rfl, Bool.false_eq_true, if_true]
            rw [skipWs_nlIndent]
            simp only [hskip, hhd, Option.some.injEq, hne1, if_false]
            rw [ihV hj (by omega) (lvl + 1) f _ (by omega)
              (numGuard_arrRest _ _ _ _)]
            simp only [ihA t (by omega) (lvl + 1) lvl f rest (by omega) hg]
        | obj m =>
          cases m with
          | nil =>
            rw [show dumpVal lvl (Json.obj JObj.nil) = ['{', '}'] from rfl,
              parseVal.eq_def]
            simp [skipWs, isWs]
          | cons k v t =>
            have hsz : jsize v + jsizeO t + 2 ≤ N + 1 := by
              simpa [jsize, jsizeO] using hjN
            have hsf : jsize v + jsizeO t + 2 ≤ f + 1 := by
              simpa [jsize, jsizeO] using hf
            have hp1 := jsize_pos v
            have hp2 := jsizeO_pos t
            rw [show dumpVal lvl (Json.obj (JObj.cons k v t)) =
                '{' :: (nlIndent (lvl + 1) ++ (qstr k ++ (':' :: (' ' ::
                  (dumpVal (lvl + 1) v ++ (dumpObjRest (lvl + 1) t ++
                    (nlIndent lvl ++ ['}']))))))) from rfl, parseVal.eq_def]
            simp only [List.cons_append, List.append_assoc,
              List.singleton_append, List.nil_append]
            rw [skipWs_cons_of_not _ (by decide : isWs '{' = false)]
            simp only [show ('{' = 'n') = False by simp,
              show ('{' = 't') = False by simp, show ('{' = 'f') = False by simp,
              show ('{' = '"') = False by simp, show ('{' = '-') = False by simp,
              show ('{' = '[') = False by simp,
              show ('{' : Char).isDigit = false by decide,
              if_false, if_pos rfl, Bool.false_eq_true, if_true]
            rw [skipWs_nlIndent, show qstr k = '"' :: (escStr k ++ ['"'])
              from rfl]
            simp only [List.cons_append, List.append_assoc,
              List.singleton_append]
            rw [skipWs_cons_of_not _ (by decide : isWs '"' = false)]
            simp only [List.head?_cons, Option.some.injEq,
              show ('"' = '}') = False by simp, if_false, List.tail_cons,
              if_pos rfl]
            rw [parseStr_escStr]
            simp only [List.nil_append, if_true,
              skipWs_cons_of_not _ (by decide : isWs ':' = false),
              List.head?_cons, Option.some.injEq, if_pos rfl, List.tail_cons]
            rw [parseVal_cons_ws f _ (by decide : isWs ' ' = true)]
            rw [ihV v (by omega) (lvl + 1) f _ (by omega)
              (numGuard_objRest _ _ _ _)]
            simp only [ihO t (by omega) (lvl + 1) lvl f rest (by omega) hg]
    · intro t htN lvl lvl2 fuel rest hf hg
      cases fuel with
      | zero => exact absurd hf (by have := jsizeA_pos t; omega)
      | succ f =>
        cases t with
        | nil =>
          rw [show dumpArrRest lvl JArr.nil = [] from rfl, List.nil_append,
            parseArrTail.eq_def]
          simp only [skipWs_nlIndent,
            skipWs_cons_of_not _ (by decide : isWs ']' = false)]
          simp
        | cons hj t =>
          have hsz : jsize hj + jsizeA t + 1 ≤ N + 1 := by
            simpa [jsizeA] using htN
          have hsf : jsize hj + jsizeA t + 1 ≤ f + 1 := by
            simpa [jsizeA] using hf
          have hp1 := jsize_pos hj
          have hp2 := jsizeA_pos t
          rw [show dumpArrRest lvl (JArr.cons hj t) =
              ',' :: (nlIndent lvl ++ (dumpVal lvl hj ++ dumpArrRest lvl t))
              from rfl, parseArrTail.eq_def]
          simp only [List.cons_append, List.append_assoc]
          rw [skipWs_cons_of_not _ (by decide : isWs ',' = false)]
          simp only [List.head?_cons, Option.some.injEq,
            show (',' = ']') = False by simp, if_false, if_pos rfl, if_true,
            List.tail_cons]
          rw [parseVal_nlIndent]
          rw [ihV hj (by omega) lvl f _ (by omega) (numGuard_arrRest _ _ _ _)]
          simp only [ihA t (by omega) lvl lvl2 f rest (by omega) hg]
    · intro m hmN lvl lvl2 fuel rest hf hg
      cases fuel with
      | zero => exact absurd hf (by have := jsizeO_pos m; omega)
      | succ f =>
        cases m with
        | nil =>
          rw [show dumpObjRest lvl JObj.nil = [] from rfl, List.nil_append,
            parseObjTail.eq_def]
          simp only [skipWs_nlIndent,
            skipWs_cons_of_not _ (by decide : isWs '}' = false)]
          simp
        | cons k v t =>
          have hsz : jsize v + jsizeO t + 1 ≤ N + 1 := by
            simpa [jsizeO] using hmN
          have hsf : jsize v + jsizeO t + 1 ≤ f + 1 := by
            simpa [jsizeO] using hf
          have hp1 := jsize_pos v
          have hp2 := jsizeO_pos t
          rw [show dumpObjRest lvl (JObj.cons k v t) =
              ',' :: (nlIndent lvl ++ (qstr k ++ (':' :: (' ' ::
                (dumpVal lvl v ++ dumpObjRest lvl t))))) from rfl,
            parseObjTail.eq_def]
          simp only [List.cons_append, List.append_assoc]
          rw [skipWs_cons_of_not _ (by decide : isWs ',' = false)]
          simp only [List.head?_cons, Option.some.injEq,
            show (',' = '}') = False by simp, if_false, if_pos rfl, if_true,
            List.tail_cons]
          rw [skipWs_nlIndent, show qstr k = '"' :: (escStr k ++ ['"'])
            from rfl]
          simp only [List.cons_append, List.append_assoc,
            List.singleton_append]
          rw [skipWs_cons_of_not _ (by decide : isWs '"' = false)]
          simp only [List.head?_cons, Option.some.injEq, if_pos rfl,
            List.tail_cons]
          rw [parseStr_escStr]
          simp only [List.nil_append, if_true,
            skipWs_cons_of_not _ (by decide : isWs ':' = false),
            List.head?_cons, Option.some.injEq, if_pos rfl, List.tail_cons]
          rw [parseVal_cons_ws f _ (by decide : isWs ' ' = true)]
          rw [ihV v (by omega) lvl f _ (by omega) (numGuard_objRest _ _ _ _)]
          simp only [ihO t (by omega) lvl lvl2 f rest (by omega) hg]

/-- The structural size of a value is bounded by the length of its
serialization (with a small allowance for tails). -/
theorem size_bound_aux : ∀ N : Nat,
    (∀ j : Json, jsize j ≤ N → ∀ lvl, jsize j ≤ (dumpVal lvl j).length) ∧
    (∀ t : JArr, jsizeA t ≤ N → ∀ lvl,
      jsizeA t ≤ (dumpArrRest lvl t).length + 2) ∧
    (∀ m : JObj, jsizeO m ≤ N → ∀ lvl,
      jsizeO m ≤ (dumpObjRest lvl m).length + 2) := by
  intro N
  induction N with
  | zero =>
    exact ⟨fun j hj => absurd hj (by have := jsize_pos j; omega),
           fun t ht => absurd ht (by have := jsizeA_pos t; omega),
           fun m hm => absurd hm (by have := jsizeO_pos m; omega)⟩
  | succ N ih =>
    obtain ⟨ihV, ihA, ihO⟩ := ih
    refine ⟨?_, ?_, ?_⟩
    · intro j hjN lvl
      cases j with
      | null => simp [jsize, dumpVal]
      | bool b => cases b <;> simp [jsize, dumpVal]
      | num n =>
        obtain ⟨c, cs, hc, _⟩ := natDigits_head n.natAbs
        have : 1 ≤ (intRepr n).length := by
          rw [intRepr]
          by_cases hn : n < 0
          · rw [if_pos hn]; simp
          · rw [if_neg hn, hc]; simp
        simpa [jsize, dumpVal] using this
      | str s => simp [jsize, dumpVal, qstr]
      | arr a =>
        cases a with
        | nil => simp [jsize, jsizeA, dumpVal]
        | cons hj t =>
          have hsz : jsize hj + jsizeA t + 2 ≤ N + 1 := by
            simpa [jsize, jsizeA] using hjN
          have hp1 := jsize_pos hj
          have hp2 := jsizeA_pos t
          have h1 := ihV hj (by omega) (lvl + 1)
          have h2 := ihA t (by omega) (lvl + 1)
          simp only [jsize, jsizeA, dumpVal, List.length_cons,
            List.length_append, nlIndent, List.length_replicate,
            List.length_singleton]
          omega
      | obj m =>
        cases m with
        | nil => simp [jsize, jsizeO, dumpVal]
        | cons k v t =>
          have hsz : jsize v + jsizeO t + 2 ≤ N + 1 := by
            simpa [jsize, jsizeO] using hjN
          have hp1 := jsize_pos v
          have hp2 := jsizeO_pos t
          have h1 := ihV v (by omega) (lvl + 1)
          have h2 := ihO t (by omega) (lvl + 1)
          simp only [jsize, jsizeO, dumpVal, List.length_cons,
            List.length_append, nlIndent, List.length_replicate,
            List.length_singleton, qstr]
          omega
    · intro t htN lvl
      cases t with
      | nil => simp [jsizeA, dumpArrRest]
      | cons hj t =>
        have hsz : jsize hj + jsizeA t + 1 ≤ N + 1 := by
          simpa [jsizeA] using htN
        have hp1 := jsize_pos hj
        have hp2 := jsizeA_pos t
        have h1 := ihV hj (by omega) lvl
        have h2 := ihA t (by omega) lvl
        simp only [jsizeA, dumpArrRest, List.length_cons, List.length_append,
          nlIndent, List.length_replicate]
        omega
    · intro m hmN lvl
      cases m with
      | nil => simp [jsizeO, dumpObjRest]
      | cons k v t =>
        have hsz : jsize v + jsizeO t + 1 ≤ N + 1 := by
          simpa [jsizeO] using hmN
        have hp1 := jsize_pos v
        have hp2 := jsizeO_pos t
        have h1 := ihV v (by omega) lvl
        have h2 := ihO t (by omega) lvl
        simp only [jsizeO, dumpObjRest, List.length_cons, List.length_append,
          nlIndent, List.length_replicate, qstr]
        omega

/-- The size of a value never exceeds the length of its serialization. -/
theorem jsize_le_dumpVal (lvl : Nat) (j : Json) :
    jsize j ≤ (dumpVal lvl j).length :=
  (size_bound_aux (jsize j)).1 j le_rfl lvl

/-- Serializer/parser round trip: `json.loads` recovers exactly the value
that `json.dumps(·, indent=4, ensure_ascii=False)` wrote. -/
theorem parseJson_pythonDumps (j : Json) :
    parseJson (pythonDumps j) = some j := by
  unfold parseJson pythonDumps
  have hdata : (String.mk (dumpVal 0 j)).data = dumpVal 0 j := rfl
  rw [hdata]
  have h1 : parseVal ((dumpVal 0 j).length + 1) (dumpVal 0 j ++ []) =
      some (j, []) :=
    (roundtrip_aux (jsize j)).1 j le_rfl 0 _ []
      (le_trans (jsize_le_dumpVal 0 j) (by omega)) trivial
  rw [List.append_nil] at h1
  rw [h1]
  simp [skipWs]

/-! Lemmas about the Hasher: chunked incremental hashing equals hashing the
whole byte stream, and the digest is 64 lowercase hex characters. -/

/-- Concatenating the chunks of a list restores the list. -/
theorem chunksN_flatten {α : Type} (n : Nat) (hn : 0 < n) :
    ∀ l : List α, (chunksN n l).flatten = l := by
  have key : ∀ (k : Nat) (l : List α), l.length ≤ k →
      (chunksN n l).flatten = l := by
    intro k
    induction k with
    | zero =>
      intro l hl
      have hnil : l = [] := by
        cases l with
        | nil => rfl
        | cons a as => simp at hl
      subst hnil
      rw [chunksN]
      simp
    | succ k ih =>
      intro l hl
      rw [chunksN]
      split
      · next h =>
        rcases h with h | h
        · have : l = [] := List.eq_nil_of_length_eq_zero h
          simp [this]
        · omega
      · next h =>
        have hlen : ¬ l.length = 0 := fun he => h (Or.inl he)
        simp only [List.flatten_cons]
        rw [ih (l.drop n) (by simp only [List.length_drop]; omega)]
        exact List.take_append_drop n l
  exact fun l => key l.length l le_rfl

/-- Folding `update` over chunks appends them all to the accumulated bytes. -/
theorem foldl_sha256Update (chunks : List (List Nat)) :
    ∀ acc : List Nat, chunks.foldl sha256Update acc = acc ++ chunks.flatten := by
  induction chunks with
  | nil => intro acc; simp
  | cons c cs ih =>
    intro acc
    simp only [List.foldl_cons, List.flatten_cons, ih, sha256Update,
      List.append_assoc]

/-- On a readable file, `get_sha256` reads the file and returns the digest
of its full byte contents: feeding 4096-byte chunks incrementally yields
the hash of the whole stream. -/
theorem get_sha256_ok (env : Env) (p : String) (bytes : List Nat)
    (h : env.readBytes p = .ok bytes) :
    get_sha256 env p = ([Event.fileRead p], .ok (sha256hex bytes)) := by
  unfold get_sha256
  rw [h]
  simp only [foldl_sha256Update, List.nil_append,
    chunksN_flatten 4096 (by omega)]

/-- On an unreadable file, the `IOError` propagates with no events and no
partial result. -/
theorem get_sha256_err (env : Env) (p : String) (e : String)
    (h : env.readBytes p = .error e) :
    get_sha256 env p = ([], .error e) := by
  unfold get_sha256
  rw [h]

/-- Any hex character produced from a reduced value is in the lowercase
hexadecimal alphabet. -/
theorem hexChar_mem_alphabet (x : Nat) :
    hexChar (x % 16) ∈ ("0123456789abcdef").data := by
  have h : x % 16 < 16 := Nat.mod_lt x (by omega)
  set y := x % 16 with hy
  interval_cases y <;> decide

/-- The digest has 32 bytes. -/
theorem sha256Bytes_length (msg : List Nat) : (sha256Bytes msg).length = 32 := by
  simp [sha256Bytes]

/-- The hex digest is 64 characters long. -/
theorem sha256hex_length (msg : List Nat) : (sha256hex msg).length = 64 := by
  have h : (sha256hex msg).length =
      ((sha256Bytes msg).flatMap hexByte).length := rfl
  rw [h, List.length_flatMap]
  have : ∀ l : List Nat, (List.map (List.length ∘ hexByte) l).sum = 2 * l.length := by
    intro l
    induction l with
    | nil => simp
    | cons b bs ih => simp [hexByte, ih]; omega
  rw [this, sha256Bytes_length]

/-- Every character of the hex digest is a lowercase hex digit. -/
theorem sha256hex_lowercase (msg : List Nat) :
    ∀ c ∈ (sha256hex msg).data, c ∈ ("0123456789abcdef").data := by
  intro c hc
  have hc2 : c ∈ (sha256Bytes msg).flatMap hexByte := hc
  rw [List.mem_flatMap] at hc2
  obtain ⟨b, _, hb⟩ := hc2
  simp only [hexByte, List.mem_cons, List.not_mem_nil, or_false] at hb
  rcases hb with rfl | rfl
  · have : b / 16 % 16 = b / 16 % 16 % 16 := by omega
    rw [show hexChar (b / 16 % 16) = hexChar (b / 16 % 16 % 16) by rw [← this]]
    exact hexChar_mem_alphabet (b / 16 % 16)
  · exact hexChar_mem_alphabet b

/-! Path lemmas: how `os.path.splitext` and `os.path.join` compose on the
paths the script builds. -/

/-- Taking while a predicate holds passes over a wholly-satisfying block. -/
theorem takeWhile_append_all {p : Char → Bool} (x y : List Char)
    (h : ∀ c ∈ x, p c = true) :
    List.takeWhile p (x ++ y) = x ++ List.takeWhile p y := by
  induction x with
  | nil => simp
  | cons a l ih =>
    simp only [List.cons_append]
    rw [List.takeWhile_cons_of_pos (h a (by simp)), ih (fun c hc => h c (by simp [hc]))]

/-- If the block contains a failing element, taking-while stops inside it. -/
theorem takeWhile_append_stop {p : Char → Bool} (x y : List Char)
    (h : ∃ c ∈ x, p c = false) :
    List.takeWhile p (x ++ y) = List.takeWhile p x ∧
      (List.takeWhile p x).length < x.length := by
  induction x with
  | nil => obtain ⟨c, hc, _⟩ := h; simp at hc
  | cons a l ih =>
    by_cases hp : p a = true
    · obtain ⟨c, hc, hcf⟩ := h
      have hcl : c ∈ l := by
        rcases List.mem_cons.mp hc with rfl | hcl
        · rw [hp] at hcf; cases hcf
        · exact hcl
      obtain ⟨ih1, ih2⟩ := ih ⟨c, hcl, hcf⟩
      constructor
      · simp only [List.cons_append]
        rw [List.takeWhile_cons_of_pos hp, List.takeWhile_cons_of_pos hp, ih1]
      · rw [List.takeWhile_cons_of_pos hp]
        simp only [List.length_cons]
        omega
    · constructor
      · simp only [List.cons_append]
        rw [List.takeWhile_cons_of_neg hp, List.takeWhile_cons_of_neg hp]
      · rw [List.takeWhile_cons_of_neg hp]
        simp

/-- The base name of a path contains no slash. -/
theorem basenameCh_no_slash (l : List Char) : '/' ∉ basenameCh l := by
  intro hm
  have h2 : '/' ∈ l.reverse.takeWhile (fun c => c != '/') := by
    simpa [basenameCh, List.mem_reverse] using hm
  have := List.mem_takeWhile_imp h2
  simp at this

/-- The base name of a slash-free path is the path itself prefixed by any
directory part that is empty or ends in a slash. -/
theorem basenameCh_append (d f : List Char)
    (hd : d = [] ∨ d.getLast? = some '/') (hf : '/' ∉ f) :
    basenameCh (d ++ f) = f := by
  unfold basenameCh
  rw [List.reverse_append]
  rw [takeWhile_append_all _ _ (fun c hc => by
    simp only [bne_iff_ne, ne_eq]
    intro he
    subst he
    exact hf (List.mem_reverse.mp hc))]
  rcases hd with rfl | hd
  · simp
  · obtain ⟨c, cs, hc⟩ : ∃ c cs, d.reverse = c :: cs := by
      cases hrev : d.reverse with
      | nil =>
        exfalso
        have : d = [] := by simpa using congrArg List.reverse hrev
        subst this
        simp at hd
      | cons c cs => exact ⟨c, cs, rfl⟩
    have hcslash : c = '/' := by
      have h2 := List.head?_reverse d
      rw [hc, hd] at h2
      simpa using h2
    subst hcslash
    rw [hc, List.takeWhile_cons_of_neg (by simp)]
    simp

/-- `os.path.splitext` on a path whose final component is `stem` plus the
`.safetensors` extension, where the stem has at least one non-dot
character: the extension splits off exactly. -/
theorem splitextCh_stem (d stem : List Char)
    (hd : d = [] ∨ d.getLast? = some '/')
    (hs : '/' ∉ stem) (hdot : ∃ c ∈ stem, c ≠ '.') :
    splitextCh (d ++ (stem ++ (".safetensors").data)) =
      (d ++ stem, (".safetensors").data) := by
  have hsfx_no_slash : '/' ∉ (".safetensors").data := by decide
  have hfs : '/' ∉ stem ++ (".safetensors").data := by
    intro h
    rcases List.mem_append.mp h with h | h
    · exact hs h
    · exact hsfx_no_slash h
  have hbase : basenameCh (d ++ (stem ++ (".safetensors").data)) =
      stem ++ (".safetensors").data := basenameCh_append _ _ hd hfs
  obtain ⟨htw, hlt⟩ := takeWhile_append_stop (p := fun c => c == '.')
    stem ((".safetensors").data)
    (by obtain ⟨c, hc, hne⟩ := hdot; exact ⟨c, hc, by simpa using hne⟩)
  unfold splitextCh
  simp only [hbase, htw]
  have hdroplen : (List.takeWhile (fun c => c == '.') stem).length ≤ stem.length := by
    omega
  rw [List.drop_append_of_le_length hdroplen]
  have hcontains : (List.drop (List.takeWhile (fun c => c == '.') stem).length stem ++
      (".safetensors").data).contains '.' = true := by
    have hmem : '.' ∈ List.drop (List.takeWhile (fun c => c == '.') stem).length stem ++
        (".safetensors").data :=
      List.mem_append.mpr (Or.inr (by decide))
    exact List.elem_iff.mpr hmem
  rw [if_pos hcontains]
  have hrev : (d ++ (stem ++ (".safetensors").data)).reverse =
      ("srosnetefas").data ++ ('.' :: (stem.reverse ++ d.reverse)) := by
    simp only [List.reverse_append]
    rw [show ((".safetensors").data).reverse =
        ("srosnetefas").data ++ ['.'] from by decide]
    simp [List.append_assoc]
  rw [hrev]
  rw [takeWhile_append_all _ _ (by decide)]
  rw [List.takeWhile_cons_of_neg (by simp)]
  have hlen12 : ((".safetensors").data).length = 12 := by decide
  simp only [List.append_nil, List.length_append, hlen12,
    show (("srosnetefas").data).length = 11 from by decide]
  have hassoc : d ++ (stem ++ (".safetensors").data) =
      (d ++ stem) ++ (".safetensors").data := by
    rw [List.append_assoc]
  rw [hassoc]
  rw [show d.length + (stem.length + 12) - (11 + 1) = (d ++ stem).length from by
    simp only [List.length_append]; omega]
  rw [List.take_left, List.drop_left]

/-- Composition the script uses to derive the sidecar path: join the output
directory with the base name, then split off the extension and append
`.json`. For a stem with a non-dot character this equals joining the output
directory with `stem.json`. -/
theorem sidecar_join (out stem : List Char)
    (hs : '/' ∉ stem) (hdot : ∃ c ∈ stem, c ≠ '.') :
    (splitextCh (pathJoinCh out (stem ++ (".safetensors").data))).1 ++
      (".json").data = pathJoinCh out (stem ++ (".json").data) := by
  have hne : stem ≠ [] := by
    obtain ⟨c0, hm, _⟩ := hdot
    intro h
    subst h
    simp at hm
  obtain ⟨c1, stem', rfl⟩ : ∃ c1 stem', stem = c1 :: stem' := by
    cases stem with
    | nil => exact absurd rfl hne
    | cons a l => exact ⟨a, l, rfl⟩
  have hc1 : ¬ c1 = '/' := fun he => hs (he ▸ List.mem_cons_self _ _)
  unfold pathJoinCh
  rw [show ((c1 :: stem') ++ (".safetensors").data).head? = some c1 from rfl,
      show ((c1 :: stem') ++ (".json").data).head? = some c1 from rfl]
  simp only [Option.some.injEq, hc1, if_false]
  by_cases h0 : out.length = 0
  · rw [if_pos h0, if_pos h0]
    have hout : out = [] := List.eq_nil_of_length_eq_zero h0
    rw [splitextCh_stem out (c1 :: stem') (Or.inl hout) hs hdot]
    simp [List.append_assoc]
  · rw [if_neg h0, if_neg h0]
    by_cases hsl : out.getLast? = some '/'
    · rw [if_pos hsl, if_pos hsl]
      rw [splitextCh_stem out (c1 :: stem') (Or.inr hsl) hs hdot]
      simp [List.append_assoc]
    · rw [if_neg hsl, if_neg hsl]
      rw [show out ++ ('/' :: ((c1 :: stem') ++ (".safetensors").data)) =
          (out ++ ['/']) ++ ((c1 :: stem') ++ (".safetensors").data) from by
        simp [List.append_assoc]]
      rw [splitextCh_stem (out ++ ['/']) (c1 :: stem')
        (Or.inr (List.getLast?_concat _)) hs hdot]
      simp [List.append_assoc]

/-! Characterization of the orchestrator's phases under explicit
environment hypotheses. -/

/-- The path the sidecar file is written to: join the output directory with
the input's base name, split off the extension, append `.json`
(lines 96, 99 and 41 of the source). -/
def sidecar_path (fp out : String) : String :=
  String.mk ((splitextCh (pathJoinCh out.data (basenameCh fp.data))).1 ++
    (".json").data)

/-- The first argument the script passes to `save_model_info`
(line 99 of the source). -/
def save_target (fp out : String) : String :=
  String.mk (pathJoinCh out.data (basenameCh fp.data))

/-- The tail of a successful run, after the hash lookup has returned a
truthy JSON object: id-lookup phase, bundle construction, persist phase. -/
def run_tail (env : Env) (fp out digest : String) (mv : Json)
    (mid : Option Json) : RunRes :=
  let st := model_info_step env mid
  let info := Json.obj (JObj.cons ("modelVersion").data mv
    (match st.2 with
     | some md => JObj.cons ("model").data md JObj.nil
     | none => JObj.nil))
  let ps := persist_step env fp out info
  ⟨[Event.log ("\n[PROCESSING] " ++ fp), Event.fileRead fp,
    Event.log ("[HASH] " ++ digest), Event.netGet (hashUrl digest)] ++
    (st.1 ++ ps.1), ps.2⟩

/-- A run that reaches the persist stage: recognized extension, readable
file, hash lookup 200 with an object body that is truthy. -/
theorem run_persist (env : Env) (fp out : String) (bytes : List Nat)
    (ms : JObj)
    (hext : pyEndsWith fp EXTENSION = true)
    (hrb : env.readBytes fp = Except.ok bytes)
    (hhash : env.hashResp (sha256hex bytes) = ⟨200, Json.obj ms⟩)
    (htr : pyTruthy (Json.obj ms) = true) :
    get_metadata_for_lora env fp out =
      run_tail env fp out (sha256hex bytes) (Json.obj ms)
        (jlookup ("modelId").data ms) := by
  unfold get_metadata_for_lora run_tail
  rw [if_pos hext]
  simp only [get_sha256_ok env fp bytes hrb]
  unfold fetch_model_version_by_hash
  rw [hhash]
  simp only [if_true]
  rw [if_pos htr]
  simp only [dictGet]
  simp [List.append_assoc]

/-- A run on a path without the recognized extension does nothing. -/
theorem run_wrong_ext (env : Env) (fp out : String)
    (hext : pyEndsWith fp EXTENSION = false) :
    get_metadata_for_lora env fp out = ⟨[], none⟩ := by
  unfold get_metadata_for_lora
  rw [if_neg (by simp [hext])]

/-- A run whose hash lookup returns non-200 stops after logging the
failure: no further request, no write, no exception. -/
theorem run_hash_miss (env : Env) (fp out : String) (bytes : List Nat)
    (hext : pyEndsWith fp EXTENSION = true)
    (hrb : env.readBytes fp = Except.ok bytes)
    (hmiss : (env.hashResp (sha256hex bytes)).status ≠ 200) :
    get_metadata_for_lora env fp out =
      ⟨[Event.log ("\n[PROCESSING] " ++ fp), Event.fileRead fp,
        Event.log ("[HASH] " ++ sha256hex bytes),
        Event.netGet (hashUrl (sha256hex bytes)),
        Event.log ("[ERROR] Failed to fetch model version for hash " ++
          sha256hex bytes ++ " - " ++
          Nat.repr (env.hashResp (sha256hex bytes)).status)], none⟩ := by
  unfold get_metadata_for_lora
  rw [if_pos hext]
  simp only [get_sha256_ok env fp bytes hrb]
  unfold fetch_model_version_by_hash
  rw [if_neg hmiss]
  simp

/-- A run whose hash lookup returns 200 with a falsy body stops silently:
no further request, no write, no exception. -/
theorem run_falsy_body (env : Env) (fp out : String) (bytes : List Nat)
    (body : Json)
    (hext : pyEndsWith fp EXTENSION = true)
    (hrb : env.readBytes fp = Except.ok bytes)
    (hhash : env.hashResp (sha256hex bytes) = ⟨200, body⟩)
    (hfalsy : pyTruthy body = false) :
    get_metadata_for_lora env fp out =
      ⟨[Event.log ("\n[PROCESSING] " ++ fp), Event.fileRead fp,
        Event.log ("[HASH] " ++ sha256hex bytes),
        Event.netGet (hashUrl (sha256hex bytes))], none⟩ := by
  unfold get_metadata_for_lora
  rw [if_pos hext]
  simp only [get_sha256_ok env fp bytes hrb]
  unfold fetch_model_version_by_hash
  rw [hhash]
  simp only [if_true]
  rw [if_neg (by simp [hfalsy])]
  simp

/-- The id-lookup phase when no `modelId` key exists. -/
theorem mis_none (env : Env) : model_info_step env none = ([], none) := rfl

/-- The id-lookup phase when `modelId` is present but falsy: skipped. -/
theorem mis_falsy (env : Env) (idv : Json) (h : pyTruthy idv = false) :
    model_info_step env (some idv) = ([], none) := by
  simp [model_info_step, h]

/-- The id-lookup phase on a truthy id and a 200 response with truthy body:
the `model` entry is produced. -/
theorem mis_ok (env : Env) (idv md : Json)
    (hid : pyTruthy idv = true)
    (hresp : env.modelResp (pyStr idv) = ⟨200, md⟩)
    (hmd : pyTruthy md = true) :
    model_info_step env (some idv) = ([Event.netGet (modelUrl idv)], some md) := by
  unfold model_info_step
  simp only []
  rw [if_pos hid]
  unfold fetch_model_details
  rw [hresp]
  simp only [if_true]
  rw [if_pos hmd]


/-- The id-lookup phase on a truthy id and a non-200 response: logged and
absent. -/
theorem mis_non200 (env : Env) (idv : Json)
    (hid : pyTruthy idv = true)
    (hresp : (env.modelResp (pyStr idv)).status ≠ 200) :
    model_info_step env (some idv) =
      ([Event.netGet (modelUrl idv),
        Event.log ("[ERROR] Failed to fetch model for ID " ++ pyStr idv ++
          " - " ++ Nat.repr (env.modelResp (pyStr idv)).status)], none) := by
  unfold model_info_step
  simp only []
  rw [if_pos hid]
  unfold fetch_model_details
  rw [if_neg hresp]

/-- The persist phase when the directory exists and the write succeeds. -/
theorem ps_ok (env : Env) (fp out : String) (info : Json)
    (hdir : env.dirExists out = true)
    (hw : env.writeErr (sidecar_path fp out) = none) :
    persist_step env fp out info =
      ([Event.fileWrite (sidecar_path fp out) (pythonDumps info),
        Event.log ("[INFO] Saved model info to " ++ sidecar_path fp out)],
       none) := by
  unfold persist_step save_model_info
  rw [hdir]
  simp only [if_true]
  rw [show String.mk ((splitextCh (String.mk (pathJoinCh out.data
      (basenameCh fp.data))).data).1 ++ (".json").data) = sidecar_path fp out
    from rfl]
  rw [hw]

/-- The persist phase when the directory is missing, its creation succeeds
and the write succeeds. -/
theorem ps_mkdir_ok (env : Env) (fp out : String) (info : Json)
    (hdir : env.dirExists out = false)
    (hmk : env.makedirsErr out = none)
    (hw : env.writeErr (sidecar_path fp out) = none) :
    persist_step env fp out info =
      ([Event.mkdirs out,
        Event.fileWrite (sidecar_path fp out) (pythonDumps info),
        Event.log ("[INFO] Saved model info to " ++ sidecar_path fp out)],
       none) := by
  unfold persist_step save_model_info
  rw [hdir]
  simp only [Bool.false_eq_true, if_false]
  rw [hmk]
  rw [show String.mk ((splitextCh (String.mk (pathJoinCh out.data
      (basenameCh fp.data))).data).1 ++ (".json").data) = sidecar_path fp out
    from rfl]
  rw [hw]

/-- The persist phase when the directory is missing and its creation
raises: the exception is not caught. -/
theorem ps_mkdir_fail (env : Env) (fp out : String) (info : Json) (e : String)
    (hdir : env.dirExists out = false)
    (hmk : env.makedirsErr out = some e) :
    persist_step env fp out info = ([], some e) := by
  unfold persist_step
  rw [hdir]
  simp only [Bool.false_eq_true, if_false]
  rw [hmk]

/-- The persist phase when the directory exists but the write raises: the
exception is caught and logged with the file path and the message. -/
theorem ps_write_fail (env : Env) (fp out : String) (info : Json) (e : String)
    (hdir : env.dirExists out = true)
    (hw : env.writeErr (sidecar_path fp out) = some e) :
    persist_step env fp out info =
      ([Event.log ("[ERROR] Failed to save JSON for " ++ save_target fp out ++
        " - " ++ e)], none) := by
  unfold persist_step save_model_info
  rw [hdir]
  simp only [if_true]
  rw [show String.mk ((splitextCh (String.mk (pathJoinCh out.data
      (basenameCh fp.data))).data).1 ++ (".json").data) = sidecar_path fp out
    from rfl]
  rw [hw]
  rfl

/-- The CLI with exactly three arguments runs the orchestrator on argv[1]
and argv[2]; the exit code is 0 unless an exception went uncaught. -/
theorem main_entry_three (env : Env) (p fp out : String) :
    main_entry env [p, fp, out] =
      ((get_metadata_for_lora env fp out).events,
        match (get_metadata_for_lora env fp out).exc with
        | none => 0
        | some _ => 1) := by
  unfold main_entry
  rw [if_pos (by simp : ([p, fp, out] : List String).length = 3)]
  rfl

/-! Concrete environments used by the witnesses and counterexamples. -/

/-- A sample Model Version Record with a truthy `modelId`. -/
def mvBody : Json := Json.obj (JObj.cons ("modelId").data (Json.num 42) JObj.nil)

/-- A sample Model Record. -/
def mdBody : Json :=
  Json.obj (JObj.cons ("name").data (Json.str ("Foo").data) JObj.nil)

/-- A sample Model Version Record without a `modelId` key. -/
def mvNoId : Json := Json.obj (JObj.cons ("x").data (Json.num 1) JObj.nil)

/-- A sample Model Version Record whose `modelId` is present but falsy. -/
def mvZeroId : Json := Json.obj (JObj.cons ("modelId").data (Json.num 0) JObj.nil)

/-- Everything succeeds; the output directory already exists. -/
def envAllOk : Env :=
  { readBytes := fun _ => Except.ok []
    hashResp := fun _ => ⟨200, mvBody⟩
    modelResp := fun _ => ⟨200, mdBody⟩
    dirExists := fun _ => true
    makedirsErr := fun _ => none
    writeErr := fun _ => none }

/-- The hash lookup returns 404. -/
def env404 : Env :=
  { readBytes := fun _ => Except.ok []
    hashResp := fun _ => ⟨404, Json.null⟩
    modelResp := fun _ => ⟨200, mdBody⟩
    dirExists := fun _ => true
    makedirsErr := fun _ => none
    writeErr := fun _ => none }

/-- The hash lookup returns 200 with an empty-object (falsy) body. -/
def envFalsyBody : Env :=
  { readBytes := fun _ => Except.ok []
    hashResp := fun _ => ⟨200, Json.obj JObj.nil⟩
    modelResp := fun _ => ⟨200, mdBody⟩
    dirExists := fun _ => true
    makedirsErr := fun _ => none
    writeErr := fun _ => none }

/-- The id lookup returns 500. -/
def envIdMiss : Env :=
  { readBytes := fun _ => Except.ok []
    hashResp := fun _ => ⟨200, mvBody⟩
    modelResp := fun _ => ⟨500, Json.null⟩
    dirExists := fun _ => true
    makedirsErr := fun _ => none
    writeErr := fun _ => none }

/-- The Model Version Record has no `modelId` key. -/
def envNoId : Env :=
  { readBytes := fun _ => Except.ok []
    hashResp := fun _ => ⟨200, mvNoId⟩
    modelResp := fun _ => ⟨200, mdBody⟩
    dirExists := fun _ => true
    makedirsErr := fun _ => none
    writeErr := fun _ => none }

/-- The `modelId` is present but falsy (0). -/
def envZeroId : Env :=
  { readBytes := fun _ => Except.ok []
    hashResp := fun _ => ⟨200, mvZeroId⟩
    modelResp := fun _ => ⟨200, mdBody⟩
    dirExists := fun _ => true
    makedirsErr := fun _ => none
    writeErr := fun _ => none }

/-- Opening the input file raises an `IOError`. -/
def envReadErr : Env :=
  { readBytes := fun _ => Except.error ("Permission denied")
    hashResp := fun _ => ⟨200, mvBody⟩
    modelResp := fun _ => ⟨200, mdBody⟩
    dirExists := fun _ => true
    makedirsErr := fun _ => none
    writeErr := fun _ => none }

/-- The output directory is missing and `os.makedirs` raises. -/
def envMkdirFail : Env :=
  { readBytes := fun _ => Except.ok []
    hashResp := fun _ => ⟨200, mvNoId⟩
    modelResp := fun _ => ⟨200, mdBody⟩
    dirExists := fun _ => false
    makedirsErr := fun _ => some ("Permission denied")
    writeErr := fun _ => none }

/-- Writing the sidecar file raises; everything else succeeds. -/
def envWriteFail : Env :=
  { readBytes := fun _ => Except.ok []
    hashResp := fun _ => ⟨200, mvNoId⟩
    modelResp := fun _ => ⟨200, mdBody⟩
    dirExists := fun _ => true
    makedirsErr := fun _ => none
    writeErr := fun _ => some ("No space left on device") }

/-- The output directory is missing and its creation succeeds. -/
def envMkdirOk : Env :=
  { readBytes := fun _ => Except.ok []
    hashResp := fun _ => ⟨200, mvNoId⟩
    modelResp := fun _ => ⟨200, mdBody⟩
    dirExists := fun _ => false
    makedirsErr := fun _ => none
    writeErr := fun _ => none }

/-! The claims. -/

/-- Claim C4: for every input path that does not end in the recognized
extension `.safetensors`, the invocation performs no hashing, no network
calls, writes no output file, and produces no error: the run records no
events at all and raises nothing. -/
theorem c4_wrong_extension_noop (env : Env) (fp out : String)
    (hext : pyEndsWith fp EXTENSION = false) :
    (get_metadata_for_lora env fp out).events = [] ∧
    (get_metadata_for_lora env fp out).exc = none := by
  rw [run_wrong_ext env fp out hext]
  exact ⟨rfl, rfl⟩

/-- Witness for C4 on the concrete input `model.ckpt`. -/
theorem c4_witness :
    (get_metadata_for_lora envAllOk ("model.ckpt") ("out")).events = [] ∧
    (get_metadata_for_lora envAllOk ("model.ckpt") ("out")).exc = none :=
  c4_wrong_extension_noop envAllOk ("model.ckpt") ("out") (by decide)

/-- Claim C3: when the hash lookup returns an absent result (non-200), the
orchestrator stops immediately: no exception is raised, no file is written,
and the only request issued is the hash lookup itself (no id lookup). -/
theorem c3_hash_miss_early_exit (env : Env) (fp out : String)
    (bytes : List Nat)
    (hext : pyEndsWith fp EXTENSION = true)
    (hrb : env.readBytes fp = Except.ok bytes)
    (hmiss : (env.hashResp (sha256hex bytes)).status ≠ 200) :
    (get_metadata_for_lora env fp out).exc = none ∧
    writesOf (get_metadata_for_lora env fp out).events = [] ∧
    getsOf (get_metadata_for_lora env fp out).events =
      [hashUrl (sha256hex bytes)] := by
  rw [run_hash_miss env fp out bytes hext hrb hmiss]
  exact ⟨rfl, rfl, rfl⟩

/-- Witness for C3 on a 404 hash lookup. -/
theorem c3_witness :
    (get_metadata_for_lora env404 ("m.safetensors") ("out")).exc = none ∧
    writesOf (get_metadata_for_lora env404 ("m.safetensors") ("out")).events
      = [] ∧
    getsOf (get_metadata_for_lora env404 ("m.safetensors") ("out")).events =
      [hashUrl (sha256hex [])] :=
  c3_hash_miss_early_exit env404 ("m.safetensors") ("out") [] (by decide) rfl
    (by decide)

/-- Claim C9: a hash lookup that returns HTTP 200 with a falsy parsed body
(an empty object, or null) is treated exactly like a miss: the orchestrator
stops, issues no id lookup and writes no file, raising nothing. -/
theorem c9_falsy_body_like_miss (env : Env) (fp out : String)
    (bytes : List Nat) (body : Json)
    (hext : pyEndsWith fp EXTENSION = true)
    (hrb : env.readBytes fp = Except.ok bytes)
    (hhash : env.hashResp (sha256hex bytes) = ⟨200, body⟩)
    (hfalsy : pyTruthy body = false) :
    (get_metadata_for_lora env fp out).exc = none ∧
    writesOf (get_metadata_for_lora env fp out).events = [] ∧
    getsOf (get_metadata_for_lora env fp out).events =
      [hashUrl (sha256hex bytes)] := by
  rw [run_falsy_body env fp out bytes body hext hrb hhash hfalsy]
  exact ⟨rfl, rfl, rfl⟩

/-- Witness for C9 on a 200 response whose body is the empty object. -/
theorem c9_witness :
    (get_metadata_for_lora envFalsyBody ("m.safetensors") ("out")).exc
      = none ∧
    writesOf
      (get_metadata_for_lora envFalsyBody ("m.safetensors") ("out")).events
      = [] ∧
    getsOf
      (get_metadata_for_lora envFalsyBody ("m.safetensors") ("out")).events =
      [hashUrl (sha256hex [])] :=
  c9_falsy_body_like_miss envFalsyBody ("m.safetensors") ("out") []
    (Json.obj JObj.nil) (by decide) rfl rfl rfl

/-- Claim C6: for every digest and model id, the registry client returns
the parsed body exactly when the status is 200, and on any non-200 status
returns an absent result while logging a line that carries the status code;
neither function can raise. -/
theorem c6_registry_client (env : Env) (h : String) (idj : Json) :
    ((env.hashResp h).status = 200 →
      fetch_model_version_by_hash env h =
        ([Event.netGet (hashUrl h)], some (env.hashResp h).body)) ∧
    ((env.hashResp h).status ≠ 200 →
      fetch_model_version_by_hash env h =
        ([Event.netGet (hashUrl h),
          Event.log ("[ERROR] Failed to fetch model version for hash " ++ h
            ++ " - " ++ Nat.repr (env.hashResp h).status)], none)) ∧
    ((env.modelResp (pyStr idj)).status = 200 →
      fetch_model_details env idj =
        ([Event.netGet (modelUrl idj)],
         some (env.modelResp (pyStr idj)).body)) ∧
    ((env.modelResp (pyStr idj)).status ≠ 200 →
      fetch_model_details env idj =
        ([Event.netGet (modelUrl idj),
          Event.log ("[ERROR] Failed to fetch model for ID " ++ pyStr idj
            ++ " - " ++ Nat.repr (env.modelResp (pyStr idj)).status)],
         none)) := by
  refine ⟨fun h200 => ?_, fun hmiss => ?_, fun h200 => ?_, fun hmiss => ?_⟩
  · unfold fetch_model_version_by_hash
    rw [if_pos h200]
  · unfold fetch_model_version_by_hash
    rw [if_neg hmiss]
  · unfold fetch_model_details
    rw [if_pos h200]
  · unfold fetch_model_details
    rw [if_neg hmiss]

/-- Witness for C6: a 200 hash lookup and a 500 id lookup. -/
theorem c6_witness :
    fetch_model_version_by_hash envAllOk ("abc") =
      ([Event.netGet (hashUrl ("abc"))],
       some (envAllOk.hashResp ("abc")).body) ∧
    fetch_model_details envIdMiss (Json.num 42) =
      ([Event.netGet (modelUrl (Json.num 42)),
        Event.log ("[ERROR] Failed to fetch model for ID " ++
          pyStr (Json.num 42) ++ " - " ++
          Nat.repr (envIdMiss.modelResp (pyStr (Json.num 42))).status)],
       none) :=
  ⟨(c6_registry_client envAllOk ("abc") Json.null).1 rfl,
   (c6_registry_client envIdMiss ("x") (Json.num 42)).2.2.2 (by decide)⟩

/-- Claim C5: on a readable file the Hasher returns the lowercase
hexadecimal SHA-256 digest of the file's full byte contents (the definition
reads in 4096-byte chunks and updates the hash state incrementally, and
this equals the digest of the whole stream): the digest has 64 characters,
all lowercase hex digits. If the file cannot be opened or read, the IOError
propagates to the caller with no partial result. -/
theorem c5_hasher (env : Env) (p : String) :
    (∀ bytes : List Nat, env.readBytes p = Except.ok bytes →
      get_sha256 env p = ([Event.fileRead p], Except.ok (sha256hex bytes)) ∧
      (sha256hex bytes).length = 64 ∧
      ∀ c ∈ (sha256hex bytes).data, c ∈ ("0123456789abcdef").data) ∧
    (∀ e : String, env.readBytes p = Except.error e →
      get_sha256 env p = ([], Except.error e)) := by
  constructor
  · intro bytes hrb
    exact ⟨get_sha256_ok env p bytes hrb, sha256hex_length bytes,
      sha256hex_lowercase bytes⟩
  · intro e hrb
    exact get_sha256_err env p e hrb

/-- Witness for C5: the empty file and a permission failure. -/
theorem c5_witness :
    get_sha256 envAllOk ("f.safetensors") =
      ([Event.fileRead ("f.safetensors")], Except.ok (sha256hex [])) ∧
    (sha256hex []).length = 64 ∧
    get_sha256 envReadErr ("f.safetensors") =
      ([], Except.error ("Permission denied")) :=
  ⟨((c5_hasher envAllOk ("f.safetensors")).1 [] rfl).1,
   ((c5_hasher envAllOk ("f.safetensors")).1 [] rfl).2.1,
   (c5_hasher envReadErr ("f.safetensors")).2 ("Permission denied") rfl⟩

/-- Claim C8: persisting any Metadata Bundle with the Persister writes the
serialized bundle, and parsing that JSON text back yields exactly the
original bundle (structural equality; key order is preserved as written). -/
theorem c8_roundtrip (env : Env) (fp : String) (bundle : Json)
    (hw : env.writeErr
      (String.mk ((splitextCh fp.data).1 ++ (".json").data)) = none) :
    save_model_info env fp bundle =
      [Event.fileWrite (String.mk ((splitextCh fp.data).1 ++ (".json").data))
        (pythonDumps bundle),
       Event.log ("[INFO] Saved model info to " ++
         String.mk ((splitextCh fp.data).1 ++ (".json").data))] ∧
    parseJson (pythonDumps bundle) = some bundle := by
  constructor
  · unfold save_model_info
    simp only [hw]
  · exact parseJson_pythonDumps bundle

/-- Witness for C8 on a two-entry bundle. -/
theorem c8_witness :
    save_model_info envAllOk ("out/a.safetensors")
      (Json.obj (JObj.cons ("modelVersion").data mvBody
        (JObj.cons ("model").data mdBody JObj.nil))) =
      [Event.fileWrite
        (String.mk ((splitextCh ("out/a.safetensors").data).1 ++
          (".json").data))
        (pythonDumps (Json.obj (JObj.cons ("modelVersion").data mvBody
          (JObj.cons ("model").data mdBody JObj.nil)))),
       Event.log ("[INFO] Saved model info to " ++
         String.mk ((splitextCh ("out/a.safetensors").data).1 ++
           (".json").data))] ∧
    parseJson (pythonDumps (Json.obj (JObj.cons ("modelVersion").data mvBody
      (JObj.cons ("model").data mdBody JObj.nil)))) =
      some (Json.obj (JObj.cons ("modelVersion").data mvBody
        (JObj.cons ("model").data mdBody JObj.nil))) :=
  c8_roundtrip envAllOk ("out/a.safetensors")
    (Json.obj (JObj.cons ("modelVersion").data mvBody
      (JObj.cons ("model").data mdBody JObj.nil))) rfl

/-- Claim C2: in a run whose hash lookup succeeds (200 with a truthy object
body) and which persists, the written bundle has exactly the two keys
`modelVersion` and `model` when the id lookup also succeeds, and only the
key `modelVersion` when the id lookup returns non-200 or the record has no
`modelId` field. -/
theorem c2_bundle_keys (env : Env) (fp out : String) (bytes : List Nat)
    (ms : JObj)
    (hext : pyEndsWith fp EXTENSION = true)
    (hrb : env.readBytes fp = Except.ok bytes)
    (hhash : env.hashResp (sha256hex bytes) = ⟨200, Json.obj ms⟩)
    (htr : pyTruthy (Json.obj ms) = true)
    (hdir : env.dirExists out = true)
    (hw : env.writeErr (sidecar_path fp out) = none) :
    (∀ idv md, jlookup ("modelId").data ms = some idv → pyTruthy idv = true →
      env.modelResp (pyStr idv) = ⟨200, md⟩ → pyTruthy md = true →
      writesOf (get_metadata_for_lora env fp out).events =
        [(sidecar_path fp out,
          pythonDumps (Json.obj (JObj.cons ("modelVersion").data (Json.obj ms)
            (JObj.cons ("model").data md JObj.nil))))] ∧
      jKeys (JObj.cons ("modelVersion").data (Json.obj ms)
          (JObj.cons ("model").data md JObj.nil)) =
        [("modelVersion").data, ("model").data]) ∧
    (∀ idv, jlookup ("modelId").data ms = some idv → pyTruthy idv = true →
      (env.modelResp (pyStr idv)).status ≠ 200 →
      writesOf (get_metadata_for_lora env fp out).events =
        [(sidecar_path fp out,
          pythonDumps (Json.obj (JObj.cons ("modelVersion").data (Json.obj ms)
            JObj.nil)))] ∧
      jKeys (JObj.cons ("modelVersion").data (Json.obj ms) JObj.nil) =
        [("modelVersion").data]) ∧
    (jlookup ("modelId").data ms = none →
      writesOf (get_metadata_for_lora env fp out).events =
        [(sidecar_path fp out,
          pythonDumps (Json.obj (JObj.cons ("modelVersion").data (Json.obj ms)
            JObj.nil)))]) := by
  refine ⟨fun idv md hlk hid hresp hmd => ⟨?_, rfl⟩,
          fun idv hlk hid hresp => ⟨?_, rfl⟩,
          fun hlk => ?_⟩
  · rw [run_persist env fp out bytes ms hext hrb hhash htr, hlk]
    unfold run_tail
    simp only [mis_ok env idv md hid hresp hmd,
      ps_ok env fp out (Json.obj (JObj.cons ("modelVersion").data
        (Json.obj ms) (JObj.cons ("model").data md JObj.nil))) hdir hw]
    simp [writesOf]
  · rw [run_persist env fp out bytes ms hext hrb hhash htr, hlk]
    unfold run_tail
    simp only [mis_non200 env idv hid hresp,
      ps_ok env fp out (Json.obj (JObj.cons ("modelVersion").data
        (Json.obj ms) JObj.nil)) hdir hw]
    simp [writesOf]
  · rw [run_persist env fp out bytes ms hext hrb hhash htr, hlk]
    unfold run_tail
    simp only [mis_none,
      ps_ok env fp out (Json.obj (JObj.cons ("modelVersion").data
        (Json.obj ms) JObj.nil)) hdir hw]
    simp [writesOf]

/-- Witness for C2: both branches of the claim at concrete environments
(successful id lookup; 500 id lookup; record without `modelId`). -/
theorem c2_witness :
    writesOf
      (get_metadata_for_lora envAllOk ("a.safetensors") ("out")).events =
      [(sidecar_path ("a.safetensors") ("out"),
        pythonDumps (Json.obj (JObj.cons ("modelVersion").data mvBody
          (JObj.cons ("model").data mdBody JObj.nil))))] ∧
    writesOf
      (get_metadata_for_lora envIdMiss ("a.safetensors") ("out")).events =
      [(sidecar_path ("a.safetensors") ("out"),
        pythonDumps (Json.obj (JObj.cons ("modelVersion").data mvBody
          JObj.nil)))] ∧
    writesOf
      (get_metadata_for_lora envNoId ("a.safetensors") ("out")).events =
      [(sidecar_path ("a.safetensors") ("out"),
        pythonDumps (Json.obj (JObj.cons ("modelVersion").data mvNoId
          JObj.nil)))] :=
  ⟨((c2_bundle_keys envAllOk ("a.safetensors") ("out") []
      (JObj.cons ("modelId").data (Json.num 42) JObj.nil)
      (by decide) rfl rfl rfl rfl rfl).1 (Json.num 42) mdBody rfl
      (by decide) rfl rfl).1,
   ((c2_bundle_keys envIdMiss ("a.safetensors") ("out") []
      (JObj.cons ("modelId").data (Json.num 42) JObj.nil)
      (by decide) rfl rfl rfl rfl rfl).2.1 (Json.num 42) rfl
      (by decide) (by decide)).1,
   (c2_bundle_keys envNoId ("a.safetensors") ("out") []
      (JObj.cons ("x").data (Json.num 1) JObj.nil)
      (by decide) rfl rfl rfl rfl rfl).2.2 rfl⟩

/-- Claim C10: when the Model Version Record has a `modelId` key whose
value is falsy (0, empty string, null, ...), the orchestrator skips the id
lookup entirely — the only request of the run is the hash lookup — and
persists a bundle containing only the `modelVersion` key: presence is
decided by truthiness, not key existence. -/
theorem c10_falsy_modelId (env : Env) (fp out : String) (bytes : List Nat)
    (ms : JObj) (idv : Json)
    (hext : pyEndsWith fp EXTENSION = true)
    (hrb : env.readBytes fp = Except.ok bytes)
    (hhash : env.hashResp (sha256hex bytes) = ⟨200, Json.obj ms⟩)
    (htr : pyTruthy (Json.obj ms) = true)
    (hdir : env.dirExists out = true)
    (hw : env.writeErr (sidecar_path fp out) = none)
    (hlk : jlookup ("modelId").data ms = some idv)
    (hfalsy : pyTruthy idv = false) :
    writesOf (get_metadata_for_lora env fp out).events =
      [(sidecar_path fp out,
        pythonDumps (Json.obj (JObj.cons ("modelVersion").data (Json.obj ms)
          JObj.nil)))] ∧
    getsOf (get_metadata_for_lora env fp out).events =
      [hashUrl (sha256hex bytes)] := by
  rw [run_persist env fp out bytes ms hext hrb hhash htr, hlk]
  unfold run_tail
  simp only [mis_falsy env idv hfalsy,
    ps_ok env fp out (Json.obj (JObj.cons ("modelVersion").data
      (Json.obj ms) JObj.nil)) hdir hw]
  constructor
  · simp [writesOf]
  · simp [getsOf]

/-- Witness for C10: `modelId` equal to 0. -/
theorem c10_witness :
    writesOf
      (get_metadata_for_lora envZeroId ("a.safetensors") ("out")).events =
      [(sidecar_path ("a.safetensors") ("out"),
        pythonDumps (Json.obj (JObj.cons ("modelVersion").data mvZeroId
          JObj.nil)))] ∧
    getsOf
      (get_metadata_for_lora envZeroId ("a.safetensors") ("out")).events =
      [hashUrl (sha256hex [])] :=
  c10_falsy_modelId envZeroId ("a.safetensors") ("out") []
    (JObj.cons ("modelId").data (Json.num 0) JObj.nil) (Json.num 0)
    (by decide) rfl rfl rfl rfl rfl rfl rfl

/-- Counterexample to claim C1 as stated: with the output directory missing
and `os.makedirs` raising (line 98 sits outside any `try`), the invocation
does not complete successfully — the exception propagates uncaught and the
process exit code is 1, not 0. -/
theorem c1_counterexample :
    (get_metadata_for_lora envMkdirFail ("m.safetensors") ("out")).exc =
      some ("Permission denied") ∧
    (main_entry envMkdirFail [("prog"), ("m.safetensors"), ("out")]).2 = 1 ∧
    ¬ (main_entry envMkdirFail [("prog"), ("m.safetensors"), ("out")]).2 = 0
    := ⟨rfl, rfl, by decide⟩

/-- Claim C1 as amended: an I/O or serialization error raised while
writing the sidecar file (inside `save_model_info`'s `try`) is caught and
logged with the file path and the error message, and the invocation still
completes successfully (exit code 0); an error raised while creating the
output directory, however, is not caught and aborts the invocation. -/
theorem c1_write_errors_caught (env : Env) (p fp out : String)
    (bytes : List Nat) (ms : JObj) (e : String)
    (hext : pyEndsWith fp EXTENSION = true)
    (hrb : env.readBytes fp = Except.ok bytes)
    (hhash : env.hashResp (sha256hex bytes) = ⟨200, Json.obj ms⟩)
    (htr : pyTruthy (Json.obj ms) = true)
    (hdir : env.dirExists out = true)
    (hw : env.writeErr (sidecar_path fp out) = some e) :
    (get_metadata_for_lora env fp out).exc = none ∧
    Event.log ("[ERROR] Failed to save JSON for " ++ save_target fp out ++
      " - " ++ e) ∈ (get_metadata_for_lora env fp out).events ∧
    (main_entry env [p, fp, out]).2 = 0 := by
  have hrun := run_persist env fp out bytes ms hext hrb hhash htr
  refine ⟨?_, ?_, ?_⟩
  · rw [hrun]
    unfold run_tail
    simp only [fun info => ps_write_fail env fp out info e hdir hw]
  · rw [hrun]
    unfold run_tail
    simp only [fun info => ps_write_fail env fp out info e hdir hw]
    simp
  · rw [main_entry_three, hrun]
    unfold run_tail
    simp only [fun info => ps_write_fail env fp out info e hdir hw]

/-- Witness for C1 (amended) with a failing sidecar write. -/
theorem c1_witness :
    (get_metadata_for_lora envWriteFail ("m.safetensors") ("out")).exc
      = none ∧
    Event.log ("[ERROR] Failed to save JSON for " ++
      save_target ("m.safetensors") ("out") ++ " - " ++
      ("No space left on device")) ∈
      (get_metadata_for_lora envWriteFail ("m.safetensors") ("out")).events ∧
    (main_entry envWriteFail
      [("prog"), ("m.safetensors"), ("out")]).2 = 0 :=
  ⟨(c1_write_errors_caught envWriteFail ("prog") ("m.safetensors") ("out")
      [] (JObj.cons ("x").data (Json.num 1) JObj.nil)
      ("No space left on device") (by decide) rfl rfl rfl rfl rfl).1,
   (c1_write_errors_caught envWriteFail ("prog") ("m.safetensors") ("out")
      [] (JObj.cons ("x").data (Json.num 1) JObj.nil)
      ("No space left on device") (by decide) rfl rfl rfl rfl rfl).2.1,
   (c1_write_errors_caught envWriteFail ("prog") ("m.safetensors") ("out")
      [] (JObj.cons ("x").data (Json.num 1) JObj.nil)
      ("No space left on device") (by decide) rfl rfl rfl rfl rfl).2.2⟩

/-- Modelled from the spec's words for claim C7: the sidecar path
`<output_directory>/<basename(input, ext→.json)>`, reading "its extension
replaced by .json" with the extension being the recognized `.safetensors`:
strip that suffix from the base name and append `.json`. -/
def spec_sidecar_path (fp out : String) : String :=
  String.mk (pathJoinCh out.data
    ((basenameCh fp.data).take
      ((basenameCh fp.data).length - ((".safetensors").data).length) ++
      (".json").data))

/-- A Model Version Record used by the C7 counterexample. -/
def envDotfile : Env :=
  { readBytes := fun _ => Except.ok []
    hashResp := fun _ => ⟨200, mvNoId⟩
    modelResp := fun _ => ⟨200, mdBody⟩
    dirExists := fun _ => true
    makedirsErr := fun _ => none
    writeErr := fun _ => none }

/-- Counterexample to claim C7 as stated: on the input `.safetensors`
(a dotfile consisting only of the recognized extension) the script writes
`out/.safetensors.json` — `os.path.splitext` treats the name as having no
extension and appends `.json` — while the claim's path, the base name with
its extension replaced by `.json`, is `out/.json`; the two differ. -/
theorem c7_counterexample :
    writesOf
      (get_metadata_for_lora envDotfile (".safetensors") ("out")).events =
      [(("out/.safetensors.json"),
        pythonDumps (Json.obj (JObj.cons ("modelVersion").data mvNoId
          JObj.nil)))] ∧
    spec_sidecar_path (".safetensors") ("out") = ("out/.json") ∧
    ¬ (("out/.safetensors.json") : String) = (("out/.json") : String) :=
  ⟨rfl, rfl, by decide⟩

/-- Claim C7 as amended: for a persisting invocation whose input base name
is `stem ++ ".safetensors"` with at least one non-dot character in the
stem, the sidecar file is written at
`join(output_directory, stem ++ ".json")`, its content is the bundle
serialized as UTF-8 JSON with 4-space indentation and non-ASCII characters
kept literally (`pythonDumps`), the output directory is created when
missing, and the run completes without error. (When the stem consists only
of dots, `os.path.splitext` finds no extension and the script instead
appends `.json` to the full base name — see the counterexample.) -/
theorem c7_sidecar_path (env : Env) (fp out : String) (bytes : List Nat)
    (ms : JObj) (stem : List Char)
    (hext : pyEndsWith fp EXTENSION = true)
    (hrb : env.readBytes fp = Except.ok bytes)
    (hhash : env.hashResp (sha256hex bytes) = ⟨200, Json.obj ms⟩)
    (htr : pyTruthy (Json.obj ms) = true)
    (hlk : jlookup ("modelId").data ms = none)
    (hbn : basenameCh fp.data = stem ++ (".safetensors").data)
    (hdot : ∃ c ∈ stem, c ≠ '.')
    (hdir : env.dirExists out = false)
    (hmk : env.makedirsErr out = none)
    (hw : env.writeErr (sidecar_path fp out) = none) :
    sidecar_path fp out =
      String.mk (pathJoinCh out.data (stem ++ (".json").data)) ∧
    Event.mkdirs out ∈ (get_metadata_for_lora env fp out).events ∧
    writesOf (get_metadata_for_lora env fp out).events =
      [(sidecar_path fp out,
        pythonDumps (Json.obj (JObj.cons ("modelVersion").data (Json.obj ms)
          JObj.nil)))] ∧
    (get_metadata_for_lora env fp out).exc = none := by
  have hs : '/' ∉ stem := by
    intro hmem
    exact basenameCh_no_slash fp.data
      (hbn ▸ List.mem_append.mpr (Or.inl hmem))
  refine ⟨?_, ?_, ?_, ?_⟩
  · unfold sidecar_path
    rw [hbn, sidecar_join out.data stem hs hdot]
  · rw [run_persist env fp out bytes ms hext hrb hhash htr, hlk]
    unfold run_tail
    simp only [mis_none,
      ps_mkdir_ok env fp out (Json.obj (JObj.cons ("modelVersion").data
        (Json.obj ms) JObj.nil)) hdir hmk hw]
    simp
  · rw [run_persist env fp out bytes ms hext hrb hhash htr, hlk]
    unfold run_tail
    simp only [mis_none,
      ps_mkdir_ok env fp out (Json.obj (JObj.cons ("modelVersion").data
        (Json.obj ms) JObj.nil)) hdir hmk hw]
    simp [writesOf]
  · rw [run_persist env fp out bytes ms hext hrb hhash htr, hlk]
    unfold run_tail
    simp only [mis_none,
      ps_mkdir_ok env fp out (Json.obj (JObj.cons ("modelVersion").data
        (Json.obj ms) JObj.nil)) hdir hmk hw]

/-- Witness for C7 (amended) on `model.safetensors` into a missing `out`. -/
theorem c7_witness :
    sidecar_path ("model.safetensors") ("out") =
      String.mk (pathJoinCh ("out").data (("model").data ++
        (".json").data)) ∧
    Event.mkdirs ("out") ∈
      (get_metadata_for_lora envMkdirOk ("model.safetensors")
        ("out")).events ∧
    writesOf (get_metadata_for_lora envMkdirOk ("model.safetensors")
        ("out")).events =
      [(sidecar_path ("model.safetensors") ("out"),
        pythonDumps (Json.obj (JObj.cons ("modelVersion").data mvNoId
          JObj.nil)))] ∧
    (get_metadata_for_lora envMkdirOk ("model.safetensors") ("out")).exc
      = none :=
  c7_sidecar_path envMkdirOk ("model.safetensors") ("out") []
    (JObj.cons ("x").data (Json.num 1) JObj.nil) (("model").data)
    (by decide) rfl rfl rfl rfl (by decide) (by decide) rfl rfl rfl
